import Mathlib

/-!
Verification development for the validation/repair engine and the
natural-language-to-SQL pipeline of `utils_agentic.py` / `app02.py`.

The dataframe is modelled as a list of rows over the nine canonical columns
(the model takes the dataset after the column normalisation of
`validate_data` lines 35-39: columns are already lowercased/underscored and
missing expected columns are present as all-absent).  A cell value is either
absent (`NaN`/`pd.NA`), a string, or a number; numbers are modelled as exact
rationals `ℚ` in place of IEEE floats.  Code that can raise a Python
exception is modelled in `Except Unit`.

Rational arithmetic is written through small kernel-computable wrappers
(`qAdd`, `qMul`, ... built on `mkRat`); each is proved equal to the
corresponding `ℚ` operation below, so concrete runs evaluate by `decide`
while the general theorems reason with ordinary field arithmetic.
-/

/-- `a + b` on `ℚ` by cross multiplication (proved equal to `a + b`). -/
def qAdd (a b : ℚ) : ℚ := mkRat (a.num * b.den + b.num * a.den) (a.den * b.den)

/-- `a - b` on `ℚ` by cross multiplication (proved equal to `a - b`). -/
def qSub (a b : ℚ) : ℚ := mkRat (a.num * b.den - b.num * a.den) (a.den * b.den)

/-- `a * b` on `ℚ` (proved equal to `a * b`). -/
def qMul (a b : ℚ) : ℚ := mkRat (a.num * b.num) (a.den * b.den)

/-- `a / b` on `ℚ`, division by zero giving zero (proved equal to `a / b`). -/
def qDiv (a b : ℚ) : ℚ :=
  if 0 ≤ b.num then mkRat (a.num * b.den) (a.den * b.num.toNat)
  else mkRat (-(a.num * b.den)) (a.den * (-b.num).toNat)

/-- `a ≤ b` on `ℚ` (proved equivalent to `a ≤ b`). -/
def qLe (a b : ℚ) : Bool := decide (a.num * b.den ≤ b.num * a.den)

/-- `a < b` on `ℚ` (proved equivalent to `a < b`). -/
def qLt (a b : ℚ) : Bool := decide (a.num * b.den < b.num * a.den)

/-- The rational `n` (proved equal to the cast). -/
def qOfNat (n : ℕ) : ℚ := mkRat n 1

/-- Sum of a list of rationals (proved equal to `List.sum`). -/
def qSum : List ℚ → ℚ
  | [] => 0
  | x :: xs => qAdd x (qSum xs)

/-- Round half up: `⌊q + 1/2⌋`, computed on the numerator. -/
def qRound (q : ℚ) : ℤ :=
  let r := qAdd q (mkRat 1 2)
  Int.fdiv r.num (r.den : ℤ)

deriving instance DecidableEq for Except

/-- A cell value of the dataframe: absent (`NaN`), a string, or a number
(floats modelled as `ℚ`). -/
inductive Value where
  | absent
  | str (s : String)
  | num (q : ℚ)
deriving DecidableEq, Repr

/-- Whether the value is a Python `str` (the case `pd.isna` is false but
numeric comparison raises `TypeError`). -/
def Value.isStr : Value → Bool
  | .str _ => true
  | _ => false

/-- `pd.isna` on a cell. -/
def Value.isAbsent : Value → Bool
  | .absent => true
  | _ => false

/-- One dataframe row over the canonical expected columns of
`validate_data` (line 36). -/
structure Row where
  customer_id : Value
  name : Value
  surname : Value
  gender : Value
  age : Value
  region : Value
  job_classification : Value
  date_joined : Value
  balance : Value
deriving DecidableEq, Repr

/-- Numeric payload of a cell, if any. -/
def numOf : Value → Option ℚ
  | .num q => some q
  | _ => none

/-- The `age` column of a dataframe. -/
def agesOf (df : List Row) : List Value := df.map (fun r => r.age)

/-- Numeric entries of a column (what pandas keeps after `dropna` on a
numeric column). -/
def numsOf (l : List Value) : List ℚ := l.filterMap numOf

/-- `df['age'].mean()` (line 85): raises `TypeError` when the object column
holds strings, yields `NaN` (modelled `none`) when there are no numeric
entries, otherwise the arithmetic mean of the numeric entries. -/
def meanAges (l : List Value) : Except Unit (Option ℚ) :=
  if l.any (fun v => v.isStr) then .error ()
  else if numsOf l = [] then .ok none
  else .ok (some (qDiv (qSum (numsOf l)) (qOfNat (numsOf l).length)))

/-- Insertion into an ascending-sorted list. -/
def insertSorted (x : ℚ) : List ℚ → List ℚ
  | [] => [x]
  | y :: ys => if qLe x y then x :: y :: ys else y :: insertSorted x ys

/-- Ascending insertion sort. -/
def sortQ : List ℚ → List ℚ
  | [] => []
  | x :: xs => insertSorted x (sortQ xs)

/-- `Series.quantile(0.99)` with the default linear interpolation, on the
non-absent numeric entries: position `h = (n-1) * 0.99` between the sorted
values; since `h ≥ 0` its floor is the truncated natural division. -/
def quantile99 (l : List ℚ) : ℚ :=
  let s := sortQ l
  let n := s.length
  let lo : ℕ := ((n - 1) * 99) / 100
  let h : ℚ := qDiv (qOfNat ((n - 1) * 99)) (qOfNat 100)
  let a := s.getD lo 0
  let b := s.getD (lo + 1) a
  qAdd a (qMul (qSub h (qOfNat lo)) (qSub b a))

/-- `df['balance'].quantile(0.99) if is_numeric_dtype(df['balance']) else None`
(line 41).  A column holding a string is not of numeric dtype, giving `None`.
A numeric column with no non-absent entry gives the float `NaN` threshold; in
Python `NaN` is truthy but every `>` comparison against it is false, so line
102 never fires, which is observationally the same as the falsy `None` —
both are collapsed to `none` here. -/
def balanceThresh (df : List Row) : Option ℚ :=
  let bs := df.map (fun r => r.balance)
  if bs.any (fun v => v.isStr) then none
  else if numsOf bs = [] then none
  else some (quantile99 (numsOf bs))

/-- ASCII lowercase, as Python `str.lower` acts on ASCII letters. -/
def lcChar (c : Char) : Char :=
  if 'A' ≤ c ∧ c ≤ 'Z' then Char.ofNat (c.toNat + 32) else c

/-- ASCII uppercase. -/
def ucChar (c : Char) : Char :=
  if 'a' ≤ c ∧ c ≤ 'z' then Char.ofNat (c.toNat - 32) else c

/-- Value of a decimal digit character. -/
def digitVal (c : Char) : Option ℕ :=
  if '0' ≤ c ∧ c ≤ '9' then some (c.toNat - 48) else none

/-- A 1-or-2 digit field, as `strptime` reads `%d` and `%y`. -/
def parse12 : List Char → Option ℕ
  | [c] => digitVal c
  | [c, d] =>
    match digitVal c, digitVal d with
    | some a, some b => some (10 * a + b)
    | _, _ => none
  | _ => none

/-- Split a character list at every dot. -/
def splitDots : List Char → List (List Char)
  | [] => [[]]
  | c :: cs =>
    if c = '.' then [] :: splitDots cs
    else
      match splitDots cs with
      | [] => [[c]]
      | p :: ps => (c :: p) :: ps

/-- `%y` century mapping of `strptime`: 00-68 are 2000-2068, 69-99 are
1969-1999. -/
def yearOf (yy : ℕ) : ℕ := if yy ≤ 68 then 2000 + yy else 1900 + yy

/-- Gregorian leap year. -/
def isLeap (y : ℕ) : Bool := (y % 4 == 0) && (y % 100 != 0 || y % 400 == 0)

/-- Day limit for a lowercased `%b` month abbreviation. -/
def monthMax (m : List Char) (leap : Bool) : Option ℕ :=
  if m = "jan".data then some 31
  else if m = "feb".data then some (if leap then 29 else 28)
  else if m = "mar".data then some 31
  else if m = "apr".data then some 30
  else if m = "may".data then some 31
  else if m = "jun".data then some 30
  else if m = "jul".data then some 31
  else if m = "aug".data then some 31
  else if m = "sep".data then some 30
  else if m = "oct".data then some 31
  else if m = "nov".data then some 30
  else if m = "dec".data then some 31
  else none

/-- Whether a string parses under the exact pattern `%d.%b.%y`
(e.g. `05.Jan.23`): day and two-digit year of 1-2 digits, case-insensitive
month abbreviation, and a day valid for that month and (mapped) year. -/
def validDate (s : String) : Bool :=
  match splitDots s.data with
  | [d, m, y] =>
    match parse12 d, parse12 y with
    | some dd, some yy =>
      (match monthMax (m.map lcChar) (isLeap (yearOf yy)) with
       | some mx => decide (1 ≤ dd) && decide (dd ≤ mx)
       | none => false)
    | _, _ => false
  | _ => false

/-- `pd.to_datetime(v, format="%d.%b.%y")` succeeding (lines 95-96): an
absent value becomes `NaT` without raising, a string must parse under the
pattern, a number raises (and the bare `except` replaces it). -/
def dateOkV : Value → Bool
  | .absent => true
  | .num _ => false
  | .str s => validDate s

/-- Base-10 digits of `n`, least significant first, by fuel recursion
(`digsF n n` is enough fuel). -/
def digsF : ℕ → ℕ → List ℕ
  | 0, _ => []
  | f + 1, n => if n = 0 then [] else n % 10 :: digsF f (n / 10)

/-- Base-10 digits of `n`, least significant first. -/
def digs (n : ℕ) : List ℕ := digsF n n

/-- Decimal numeral of a natural number, as Python `str(n)` renders it. -/
def natStr (n : ℕ) : String :=
  if n = 0 then "0"
  else String.mk (((digs n).map (fun d => Char.ofNat (48 + d))).reverse)

/-- Decimal numeral of an integer. -/
def intStr (z : ℤ) : String :=
  (if z < 0 then "-" else "") ++ natStr z.natAbs

/-- The synthesized token `f"AUTO-{n}"` (line 49). -/
def autoId (n : ℕ) : String := "AUTO-" ++ natStr n

/-- The `while new_id in existing_ids` search of lines 50-52, with explicit
fuel: starting at candidate `c`, advance while the candidate is taken.
`freshNat` supplies fuel `ex.length + 1`, which is proved sufficient below
(the candidates are pairwise distinct, so at most `ex.length` of them can be
taken). -/
def freshFuel : ℕ → List String → ℕ → ℕ
  | 0, _, c => c
  | f + 1, ex, c => if autoId c ∈ ex then freshFuel f ex (c + 1) else c

/-- The first counter value at or after `c` whose token is not in `ex`. -/
def freshNat (ex : List String) (c : ℕ) : ℕ := freshFuel (ex.length + 1) ex c

/-- Python `f"{x:.1f}"`: the value rounded to one decimal place, rendered
with exactly one digit after the point (ties modelled as round half up on
the exact rational). -/
def fmt1 (q : ℚ) : String :=
  let n : ℤ := qRound (qMul q (qOfNat 10))
  (if n < 0 then "-" else "") ++ natStr (n.natAbs / 10) ++ "." ++ natStr (n.natAbs % 10)

/-- Rendering of the filled average: the float `NaN` prints as `nan`. -/
def fmtAvg : Option ℚ → String
  | none => "nan"
  | some q => fmt1 q

/-- Rendering used by `astype(str)` on a non-absent numeric `customer_id`
(line 42); only its value on strings matters to the theorems below. -/
def ratStr (q : ℚ) : String := intStr q.num ++ "/" ++ natStr q.den

/-- `df['customer_id'].dropna().astype(str)` on one cell. -/
def idStr : Value → Option String
  | .absent => none
  | .str s => some s
  | .num q => some (ratStr q)

/-- The initial `existing_ids` set (line 42). -/
def initIds (df : List Row) : List String :=
  df.filterMap (fun r => idStr r.customer_id)

/-- Line 102, `if balance_thresh and row['balance'] > balance_thresh`: a
falsy (`None` or `0.0`) threshold skips the check; an absent balance
(`NaN`) compares false against any number.  (A string balance would raise
here, but line 90 has already raised for it — see `processRow`.) -/
def outlierB (th : Option ℚ) (v : Value) : Bool :=
  match th with
  | none => false
  | some t =>
    if t.num = 0 then false
    else
      match v with
      | .num q => qLt t q
      | _ => false

/-- Whether line 90 fires: `pd.isna(row['balance']) or row['balance'] < 0`
(on a non-string balance). -/
def balBad : Value → Bool
  | .absent => true
  | .num q => qLt q 0
  | .str _ => false

/-- The pure part of the body of the row loop (lines 46-106): the repaired
row together with its issue and fix lists, given the freshly generated id
token `idN` (used only when `customer_id` is absent) and the already
computed age-column mean `mm` (used only when `age` is absent; `none` is the
`NaN` mean, whose assignment leaves the cell absent).  Checks appear in
source order. -/
def specRow (th : Option ℚ) (idN : String) (mm : Option ℚ) (r : Row) :
    Row × List String × List String :=
  let cidA := r.customer_id = Value.absent
  let nameA := r.name = Value.absent
  let surA := r.surname = Value.absent
  let genA := r.gender = Value.absent
  let regA := r.region = Value.absent
  let jobA := r.job_classification = Value.absent
  let ageA := r.age = Value.absent
  let balB := balBad r.balance = true
  let dateB := dateOkV r.date_joined = false
  let outl := outlierB th r.balance
  let r' : Row := {
    customer_id := if cidA then .str idN else r.customer_id
    name := if nameA then .str "Unknown" else r.name
    surname := if surA then .str "Unknown" else r.surname
    gender := if genA then .str "Not Specified" else r.gender
    age := if ageA then (match mm with | some q => .num q | none => .absent) else r.age
    region := if regA then .str "Unknown" else r.region
    job_classification := if jobA then .str "Other" else r.job_classification
    date_joined := if dateB then .str "01.Jan.00" else r.date_joined
    balance := if balB then .num 0 else r.balance }
  let iss : List String :=
    (if cidA then ["Missing customer_id"] else []) ++
    (if nameA then ["Missing name"] else []) ++
    (if surA then ["Missing surname"] else []) ++
    (if genA then ["Missing gender"] else []) ++
    (if regA then ["Missing region"] else []) ++
    (if jobA then ["Missing job_classification"] else []) ++
    (if ageA then ["Missing age"] else []) ++
    (if balB then ["Missing or negative balance"] else []) ++
    (if dateB then ["Bad date format"] else []) ++
    (if outl then ["Outlier in balance"] else [])
  let fxs : List String :=
    (if cidA then ["Auto-generated ID: " ++ idN] else []) ++
    (if nameA then ["Filled name with \x27Unknown\x27"] else []) ++
    (if surA then ["Filled surname with \x27Unknown\x27"] else []) ++
    (if genA then ["Filled gender with \x27Not Specified\x27"] else []) ++
    (if regA then ["Filled region with \x27Unknown\x27"] else []) ++
    (if jobA then ["Filled job_classification with \x27Other\x27"] else []) ++
    (if ageA then ["Filled age with average age " ++ fmtAvg mm] else []) ++
    (if balB then ["Filled balance with 0"] else []) ++
    (if dateB then ["Filled with default date 01.Jan.00"] else [])
  (r', iss, fxs)

/-- All per-row repair checks of lines 48-100 pass: every required field
present, balance non-negative, date parseable.  (The outlier flag of line
102 is not a repair and is tracked separately.) -/
def CleanFields (r : Row) : Prop :=
  r.customer_id ≠ Value.absent ∧ r.name ≠ Value.absent ∧ r.surname ≠ Value.absent ∧
  r.gender ≠ Value.absent ∧ r.region ≠ Value.absent ∧
  r.job_classification ≠ Value.absent ∧ r.age ≠ Value.absent ∧
  balBad r.balance = false ∧ dateOkV r.date_joined = true

/-- Relation between an original age cell and its value during the loop:
unchanged, or an absent cell filled with the running mean `M`. -/
def AgeOK (M : ℚ) (a b : Value) : Prop :=
  b = a ∨ (a = Value.absent ∧ b = Value.num M)

/-- The age-mean computation of line 85, performed only when this row's age
is absent; `colAges` is the current age column at that moment. -/
def ageMeanStep (colAges : List Value) (r : Row) : Except Unit (Option ℚ) :=
  if r.age = Value.absent then meanAges colAges else .ok none

/-- One iteration of the row loop (lines 46-106).  The only statements that
can raise are the mean of an object age column holding strings (line 85) and
the comparison `row['balance'] < 0` on a string balance (line 90); the
threshold comparison on line 102 can only raise for a string balance, which
line 90 has already raised for, so a single balance check suffices.
Returns the row result together with the updated `existing_ids` and
`auto_id_counter`. -/
def processRow (th : Option ℚ) (colAges : List Value) (r : Row) (ex : List String) (ctr : ℕ) :
    Except Unit ((Row × List String × List String) × List String × ℕ) :=
  match ageMeanStep colAges r with
  | .error e => .error e
  | .ok mm =>
    if r.balance.isStr then .error ()
    else
      let n := freshNat ex ctr
      .ok (specRow th (autoId n) mm r,
        (if r.customer_id = Value.absent then autoId n :: ex else ex),
        (if r.customer_id = Value.absent then n + 1 else ctr))

/-- The row loop of `validate_data` (line 45), written with an explicit
split of the dataframe into the already-processed prefix (only its age
column `prev` is ever read back, by line 85) and the untouched remainder.
The age column seen by row `r` is `prev ++ r.age :: (ages of the rest)`,
exactly the dataframe state at that iteration. -/
def runRows (th : Option ℚ) :
    List Value → List Row → List String → ℕ →
    Except Unit (List (Row × List String × List String) × List String × ℕ)
  | _, [], ex, ctr => .ok ([], ex, ctr)
  | prev, r :: rest, ex, ctr =>
    match processRow th (prev ++ r.age :: rest.map (fun x => x.age)) r ex ctr with
    | .error e => .error e
    | .ok (t, ex1, ctr1) =>
      match runRows th (prev ++ [t.1.age]) rest ex1 ctr1 with
      | .error e => .error e
      | .ok (out, exF, ctrF) => .ok (t :: out, exF, ctrF)

/-- `validate_data` up to the final string join: per row, the repaired row
and its issue/fix lists (plus the final loop state). -/
def validateRaw (df : List Row) :
    Except Unit (List (Row × List String × List String) × List String × ℕ) :=
  runRows (balanceThresh df) [] df (initIds df) 100001

/-- An output row of the Validator: the repaired row plus the two derived
text columns (lines 108-109). -/
structure VRow where
  row : Row
  validation_issues : String
  fix_suggestions : String
deriving DecidableEq, Repr

/-- The Validator's returned state: cleaned rows and the status (line 111). -/
structure VResult where
  rows : List VRow
  status : String
deriving DecidableEq, Repr

/-- `"; ".join(l)`. -/
def joinSemi : List String → String
  | [] => ""
  | [s] => s
  | s :: rest => s ++ "; " ++ joinSemi rest

/-- `validate_data` (lines 31-111): on success the cleaned dataframe with
the two derived columns joined by `"; "`, and status `"OK"`. -/
def validate_data (df : List Row) : Except Unit VResult :=
  match validateRaw df with
  | .error e => .error e
  | .ok (out, _, _) =>
    .ok { rows := out.map (fun t =>
            { row := t.1, validation_issues := joinSemi t.2.1,
              fix_suggestions := joinSemi t.2.2 }),
          status := "OK" }

/-- Lowercased characters of a string, `issue.lower()` in `app02.py`
line 61. -/
def lowerStr (s : String) : List Char := s.data.map lcChar

/-- Whether the first list is a leading segment of the second. -/
def hasPref : List Char → List Char → Bool
  | [], _ => true
  | _ :: _, [] => false
  | a :: as, b :: bs => a = b && hasPref as bs

/-- Python `p in l`: contiguous-substring membership. -/
def hasSub (p : List Char) : List Char → Bool
  | [] => p.isEmpty
  | c :: cs => hasPref p (c :: cs) || hasSub p cs

/-- The column bucket chosen for one issue text by the summary code of
`app02.py` lines 61-81: known column-name substrings tested in the fixed
source order against the lowercased text, else `unknown`. -/
def classifyIssue (issue : String) : String :=
  let l := lowerStr issue
  if hasSub "customer_id".data l then "customer_id"
  else if hasSub "name".data l then "name"
  else if hasSub "surname".data l then "surname"
  else if hasSub "gender".data l then "gender"
  else if hasSub "age".data l then "age"
  else if hasSub "region".data l then "region"
  else if hasSub "job_classification".data l then "job_classification"
  else if hasSub "date".data l then "date_joined"
  else if hasSub "balance".data l then "balance"
  else "unknown"

/-- Case-insensitive `SELECT` at the head of the text, as the
`re.IGNORECASE` pattern of line 146 matches it. -/
def selPref (l : List Char) : Bool := (l.take 6).map ucChar = "SELECT".data

/-- Characters strictly before the first semicolon, if one exists: the lazy
quantifier stops at the earliest following `;`. -/
def upToSemi : List Char → Option (List Char)
  | [] => none
  | c :: cs => if c = ';' then some [] else (upToSemi cs).map (fun b => c :: b)

/-- Group 1 of the pattern of line 146 anchored at the head of `l`: the
keyword, then at least one character, up to the first semicolon after that
character. -/
def selMatch (l : List Char) : Option (List Char) :=
  if selPref l then
    match l.drop 6 with
    | [] => none
    | c :: cs => (upToSemi cs).map (fun b => l.take 6 ++ c :: b)
  else none

/-- `re.search`: the match at the leftmost start position that admits one. -/
def reSearch : List Char → Option (List Char)
  | [] => none
  | c :: cs =>
    match selMatch (c :: cs) with
    | some g => some g
    | none => reSearch cs

/-- Lines 146-147: `sql = sql_match.group(1) + ";" if sql_match else ""`. -/
def extractSql (s : String) : String :=
  match reSearch s.data with
  | some g => String.mk (g ++ [';'])
  | none => ""

/-- A match of the pattern of line 146 located by indices: a
case-insensitive `SELECT` at position `i` and a semicolon at position `j`,
at least one character after the keyword. -/
def MatchAt (l : List Char) (i j : ℕ) : Prop :=
  selPref (l.drop i) = true ∧ i + 7 ≤ j ∧ l.get? j = some ';'

/-- The leftmost match with its earliest terminating semicolon. -/
def FirstMatch (l : List Char) (i j : ℕ) : Prop :=
  MatchAt l i j ∧ (∀ i' < i, ¬ ∃ j', MatchAt l i' j') ∧ (∀ j' < j, ¬ MatchAt l i j')

/-- Extraction following the claim's words instead of the regex: the first
substring starting at a case-insensitive `SELECT` keyword and ending at the
next semicolon — allowing that semicolon to sit immediately after the
keyword — with the semicolon appended. -/
def specSelMatch (l : List Char) : Option (List Char) :=
  if selPref l then (upToSemi (l.drop 6)).map (fun b => l.take 6 ++ b) else none

/-- Leftmost-start search for `specSelMatch`. -/
def specSearch : List Char → Option (List Char)
  | [] => none
  | c :: cs =>
    match specSelMatch (c :: cs) with
    | some g => some g
    | none => specSearch cs

/-- The claim's reading of the extraction, for comparison with
`extractSql`. -/
def specExtractSql (s : String) : String :=
  match specSearch s.data with
  | some g => String.mk (g ++ [';'])
  | none => ""

/-- Python `str.strip()` whitespace. -/
def isWs (c : Char) : Bool :=
  c = ' ' || c = '\t' || c = '\n' || c = '\x0b' || c = '\x0c' || c = '\r'

/-- `response.text.strip()` (line 144). -/
def pyStrip (s : String) : String :=
  String.mk (((s.data.dropWhile isWs).reverse.dropWhile isWs).reverse)

/-- The QA pipeline state: question, generated SQL, result table and status.
The `TypedDict` keys may be missing before a stage sets them; a missing
`status` is modelled as `none`.  Result tables are opaque row lists. -/
structure QAState where
  question : String
  sql : String
  result : List (List String)
  status : Option String
deriving DecidableEq, Repr

/-- `run_llm_sql` (lines 122-152).  Everything inside the `try` block up to
and including `response.text` — the store read and the external model call —
is summarised by `callResult`: `.ok text` when it returns the model's reply,
`.error ()` when any of it raises.  On a reply the first `SELECT ... ;` is
extracted from the stripped text and only `sql` is set; on an exception
`sql` is emptied and `status` set to `"FAILED"`. -/
def run_llm_sql (st : QAState) (callResult : Except Unit String) : QAState :=
  match callResult with
  | .ok text => { st with sql := extractSql (pyStrip text) }
  | .error _ => { st with sql := "", status := some "FAILED" }

/-- `execute_sql` (lines 155-162).  `engine` models
`pd.read_sql(sql, conn)` against the store: a result table, or an exception
(empty SQL, syntax error, or runtime query error all raise).  The `try`
arm sets the result and `"OK"`; the `except` arm an empty table and
`"FAILED"`. -/
def execute_sql (st : QAState) (engine : String → Except Unit (List (List String))) : QAState :=
  match engine st.sql with
  | .ok tb => { st with result := tb, status := some "OK" }
  | .error _ => { st with result := [], status := some "FAILED" }

/-! ### Concrete datasets used by the witnesses and counterexamples -/

/-- Value of a digit list, least significant digit first. -/
def unDigs : List ℕ → ℕ
  | [] => 0
  | d :: ds => d + 10 * unDigs ds

/-- Filled ids of two different rows never coincide. -/
def FilledNe (p q : Row × (Row × List String × List String)) : Prop :=
  p.1.customer_id = Value.absent → q.1.customer_id = Value.absent →
    p.2.1.customer_id ≠ q.2.1.customer_id

/-- A fully valid example row: every repair check of the Validator passes. -/
def okRow : Row :=
  { customer_id := .str "C1", name := .str "Ann", surname := .str "Lee",
    gender := .str "F", age := .num 30, region := .str "East",
    job_classification := .str "Other", date_joined := .str "05.Jan.23",
    balance := .num 100 }

/-- A row with every cell absent. -/
def C2row : Row :=
  { customer_id := .absent, name := .absent, surname := .absent,
    gender := .absent, age := .absent, region := .absent,
    job_classification := .absent, date_joined := .absent, balance := .absent }

/-- Two rows, the second with an absent age: its fill must use the mean of
the originally present ages (here just 30). -/
def Cdf1 : List Row := [okRow, { okRow with customer_id := .str "C2", age := .absent }]

/-- A row whose balance cell holds a string. -/
def C3row : Row := { okRow with balance := .str "abc" }

/-- Balances -99 and 1: the 99th-percentile threshold computes to exactly 0. -/
def C4df : List Row :=
  [{ okRow with balance := .num (-99) },
   { okRow with customer_id := .str "C2", balance := .num 1 }]

/-- The outlier example of the spec: balances [10,10,10,10,1000]. -/
def C4Wdf : List Row :=
  [{ okRow with balance := .num 10 },
   { okRow with customer_id := .str "C2", balance := .num 10 },
   { okRow with customer_id := .str "C3", balance := .num 10 },
   { okRow with customer_id := .str "C4", balance := .num 10 },
   { okRow with customer_id := .str "C5", balance := .num 1000 }]

/-- The first auto-id candidate is already taken, and two rows need ids. -/
def C5df : List Row :=
  [{ okRow with customer_id := .str "AUTO-100001" },
   { okRow with customer_id := .absent },
   { okRow with customer_id := .absent, name := .absent }]

/-- A reply text whose regex match and claimed match differ: the semicolon
right after the keyword. -/
def C6s : String := "x SELECT;1; y"

/-- A QA state with no status set, as before the first stage runs. -/
def C7st : QAState := { question := "q", sql := "s0", result := [], status := none }

/-- An engine that raises on empty SQL, as `pd.read_sql("")` does. -/
def C8engine : String → Except Unit (List (List String)) :=
  fun s => if s = "" then .error () else .ok [["1"]]

/-- A state whose pending SQL text is empty. -/
def C8st : QAState := { question := "q", sql := "", result := [], status := none }

/-- A clean row with balance 100 next to a row with an absent balance: after
repair the balances are [100, 0], which moves the re-computed 99th-percentile
threshold below 100. -/
def C9df : List Row := [okRow, { okRow with customer_id := .str "C2", balance := .absent }]

/-- The Validator output rows for `Cdf1`: the second age is filled with 30,
the mean of the one originally present age. -/
def C1out : List (Row × List String × List String) :=
  [(okRow, [], []),
   ({ okRow with customer_id := .str "C2" },
    ["Missing age"], ["Filled age with average age 30.0"])]

/-- The Validator output rows for `[C2row]`: every field is repaired except
the age (the age-column mean is `NaN`) and the date (an absent date is
accepted by `pd.to_datetime` as `NaT`). -/
def C2out : List (Row × List String × List String) :=
  [({ customer_id := .str "AUTO-100001", name := .str "Unknown",
      surname := .str "Unknown", gender := .str "Not Specified",
      age := .absent, region := .str "Unknown", job_classification := .str "Other",
      date_joined := .absent, balance := .num 0 },
    ["Missing customer_id", "Missing name", "Missing surname", "Missing gender",
     "Missing region", "Missing job_classification", "Missing age",
     "Missing or negative balance"],
    ["Auto-generated ID: AUTO-100001", "Filled name with \x27Unknown\x27",
     "Filled surname with \x27Unknown\x27", "Filled gender with \x27Not Specified\x27",
     "Filled region with \x27Unknown\x27", "Filled job_classification with \x27Other\x27",
     "Filled age with average age nan", "Filled balance with 0"])]

/-- The Validator output rows for `C4Wdf`: only the 1000 balance exceeds the
threshold 960.4, and its note has no matching fix. -/
def C4Wout : List (Row × List String × List String) :=
  [({ okRow with balance := .num 10 }, [], []),
   ({ okRow with customer_id := .str "C2", balance := .num 10 }, [], []),
   ({ okRow with customer_id := .str "C3", balance := .num 10 }, [], []),
   ({ okRow with customer_id := .str "C4", balance := .num 10 }, [], []),
   ({ okRow with customer_id := .str "C5", balance := .num 1000 },
    ["Outlier in balance"], [])]

/-- The Validator output rows for `C5df`: the taken candidate `AUTO-100001`
is skipped and the two filled ids are distinct. -/
def C5out : List (Row × List String × List String) :=
  [({ okRow with customer_id := .str "AUTO-100001" }, [], []),
   ({ okRow with customer_id := .str "AUTO-100002" },
    ["Missing customer_id"], ["Auto-generated ID: AUTO-100002"]),
   ({ okRow with customer_id := .str "AUTO-100003", name := .str "Unknown" },
    ["Missing customer_id", "Missing name"],
    ["Auto-generated ID: AUTO-100003", "Filled name with \x27Unknown\x27"])]

/-- The first validation of `C9df`: the 100-balance row is clean, the absent
balance is repaired to 0. -/
def C9res1 : VResult :=
  { rows := [{ row := okRow, validation_issues := "", fix_suggestions := "" },
             { row := { okRow with customer_id := .str "C2", balance := .num 0 },
               validation_issues := "Missing or negative balance",
               fix_suggestions := "Filled balance with 0" }],
    status := "OK" }

/-- The second validation, on the first validation output: the repaired
balances [100, 0] give the threshold 99, so the previously clean row is now
flagged as an outlier. -/
def C9res2 : VResult :=
  { rows := [{ row := okRow, validation_issues := "Outlier in balance",
               fix_suggestions := "" },
             { row := { okRow with customer_id := .str "C2", balance := .num 0 },
               validation_issues := "", fix_suggestions := "" }],
    status := "OK" }

/-- The Validator output rows for `[okRow]`. -/
def C9Wout : List (Row × List String × List String) := [(okRow, [], [])]

/-! ### Bridges between the kernel-computable wrappers and `ℚ` arithmetic -/

theorem ratNumEq (q : ℚ) : (q.num : ℚ) = q * q.den := by
  have h : ((q.den : ℚ)) ≠ 0 := by exact_mod_cast q.den_nz
  nth_rewrite 2 [← Rat.num_div_den q]
  rw [div_mul_cancel₀ _ h]

theorem qAdd_eq (a b : ℚ) : qAdd a b = a + b := by
  have ha : ((a.den : ℚ)) ≠ 0 := by exact_mod_cast a.den_nz
  have hb : ((b.den : ℚ)) ≠ 0 := by exact_mod_cast b.den_nz
  rw [qAdd, Rat.mkRat_eq_div]
  push_cast
  rw [div_eq_iff (mul_ne_zero ha hb), ratNumEq a, ratNumEq b]
  ring

theorem qSub_eq (a b : ℚ) : qSub a b = a - b := by
  have ha : ((a.den : ℚ)) ≠ 0 := by exact_mod_cast a.den_nz
  have hb : ((b.den : ℚ)) ≠ 0 := by exact_mod_cast b.den_nz
  rw [qSub, Rat.mkRat_eq_div]
  push_cast
  rw [div_eq_iff (mul_ne_zero ha hb), ratNumEq a, ratNumEq b]
  ring

theorem qMul_eq (a b : ℚ) : qMul a b = a * b := by
  have ha : ((a.den : ℚ)) ≠ 0 := by exact_mod_cast a.den_nz
  have hb : ((b.den : ℚ)) ≠ 0 := by exact_mod_cast b.den_nz
  rw [qMul, Rat.mkRat_eq_div]
  push_cast
  rw [div_eq_iff (mul_ne_zero ha hb), ratNumEq a, ratNumEq b]
  ring

theorem qDiv_eq (a b : ℚ) : qDiv a b = a / b := by
  have ha : ((a.den : ℚ)) ≠ 0 := by exact_mod_cast a.den_nz
  have hb : ((b.den : ℚ)) ≠ 0 := by exact_mod_cast b.den_nz
  rcases lt_trichotomy b.num 0 with hn | hn | hn
  · have hb0 : b ≠ 0 := Rat.num_ne_zero.mp hn.ne
    have hbn : ((b.num : ℚ)) ≠ 0 := by exact_mod_cast hn.ne
    rw [qDiv, if_neg (not_le.mpr hn), Rat.mkRat_eq_div]
    have h1 : (((-b.num).toNat : ℕ) : ℚ) = -((b.num : ℤ) : ℚ) := by
      rw [← Int.cast_natCast, Int.toNat_of_nonneg (neg_nonneg.mpr hn.le), Int.cast_neg]
    have hd : ((a.den * (-b.num).toNat : ℕ) : ℚ) = (a.den : ℚ) * (-(b.num : ℚ)) := by
      push_cast
      rw [h1]
    have hm : ((-(a.num * (b.den : ℤ)) : ℤ) : ℚ) = -((a.num : ℚ) * (b.den : ℚ)) := by
      push_cast
      ring
    rw [hd, hm, div_eq_div_iff (mul_ne_zero ha (neg_ne_zero.mpr hbn)) hb0,
      ratNumEq a, ratNumEq b]
    ring
  · have hb0 : b = 0 := by rwa [← Rat.num_eq_zero]
    subst hb0
    simp [qDiv, Rat.mkRat_eq_div]
  · have hb0 : b ≠ 0 := Rat.num_ne_zero.mp hn.ne'
    have hbn : ((b.num : ℚ)) ≠ 0 := by exact_mod_cast hn.ne'
    rw [qDiv, if_pos hn.le, Rat.mkRat_eq_div]
    have h1 : ((b.num.toNat : ℕ) : ℚ) = ((b.num : ℤ) : ℚ) := by
      rw [← Int.cast_natCast, Int.toNat_of_nonneg hn.le]
    have hd : ((a.den * b.num.toNat : ℕ) : ℚ) = (a.den : ℚ) * (b.num : ℚ) := by
      push_cast
      rw [h1]
    have hm : ((a.num * (b.den : ℤ) : ℤ) : ℚ) = (a.num : ℚ) * (b.den : ℚ) := by
      push_cast
      ring
    rw [hd, hm, div_eq_div_iff (mul_ne_zero ha hbn) hb0, ratNumEq a, ratNumEq b]
    ring

theorem qLe_iff (a b : ℚ) : qLe a b = true ↔ a ≤ b := by
  have ha : (0 : ℚ) < (a.den : ℚ) := by exact_mod_cast a.pos
  have hb : (0 : ℚ) < (b.den : ℚ) := by exact_mod_cast b.pos
  rw [qLe, decide_eq_true_eq]
  conv_rhs => rw [← Rat.num_div_den a, ← Rat.num_div_den b]
  rw [div_le_div_iff ha hb]
  exact_mod_cast Iff.rfl

theorem qLt_iff (a b : ℚ) : qLt a b = true ↔ a < b := by
  have ha : (0 : ℚ) < (a.den : ℚ) := by exact_mod_cast a.pos
  have hb : (0 : ℚ) < (b.den : ℚ) := by exact_mod_cast b.pos
  rw [qLt, decide_eq_true_eq]
  conv_rhs => rw [← Rat.num_div_den a, ← Rat.num_div_den b]
  rw [div_lt_div_iff ha hb]
  exact_mod_cast Iff.rfl

theorem qOfNat_eq (n : ℕ) : qOfNat n = (n : ℚ) := by
  rw [qOfNat, Rat.mkRat_eq_div]
  push_cast
  simp

theorem qSum_eq (l : List ℚ) : qSum l = l.sum := by
  induction l with
  | nil => rfl
  | cons x xs ih => rw [qSum, qAdd_eq, ih, List.sum_cons]

theorem qNum_zero_iff (t : ℚ) : t.num = 0 ↔ t = 0 := Rat.num_eq_zero

/-! ### List plumbing -/

theorem forall2_get {α β : Type _} {R : α → β → Prop} :
    ∀ {l₁ : List α} {l₂ : List β}, List.Forall₂ R l₁ l₂ →
      ∀ {i : ℕ} {a : α} {b : β}, l₁.get? i = some a → l₂.get? i = some b → R a b := by
  intro l₁ l₂ h
  induction h with
  | nil => intro i a b h1 _; simp at h1
  | cons hab htl ih =>
    intro i a b h1 h2
    cases i with
    | zero =>
      simp only [List.get?_cons_zero, Option.some.injEq] at h1 h2
      rw [← h1, ← h2]
      exact hab
    | succ n => exact ih (by simpa using h1) (by simpa using h2)

/-! ### The decimal rendering is injective -/

theorem digsF_round : ∀ f n, n ≤ f → unDigs (digsF f n) = n := by
  intro f
  induction f with
  | zero =>
    intro n h
    have h0 : n = 0 := Nat.le_zero.mp h
    subst h0
    rfl
  | succ f ih =>
    intro n h
    by_cases h0 : n = 0
    · subst h0
      simp [digsF, unDigs]
    · rw [digsF, if_neg h0, unDigs]
      have hlt : n / 10 < n := Nat.div_lt_self (Nat.pos_of_ne_zero h0) (by norm_num)
      rw [ih (n / 10) (by omega), Nat.mod_add_div]

theorem digs_round (n : ℕ) : unDigs (digs n) = n := digsF_round n n le_rfl

theorem digsF_lt_ten : ∀ f n d, d ∈ digsF f n → d < 10 := by
  intro f
  induction f with
  | zero => intro n d hd; simp [digsF] at hd
  | succ f ih =>
    intro n d hd
    rw [digsF] at hd
    by_cases h0 : n = 0
    · rw [if_pos h0] at hd; simp at hd
    · rw [if_neg h0] at hd
      rcases List.mem_cons.mp hd with h | h
      · subst h; exact Nat.mod_lt n (by norm_num)
      · exact ih _ _ h

theorem digitCharInj :
    ∀ d, d < 10 → ∀ e, e < 10 → Char.ofNat (48 + d) = Char.ofNat (48 + e) → d = e := by
  decide

theorem mapDigitsInj : ∀ l₁ l₂ : List ℕ, (∀ d ∈ l₁, d < 10) → (∀ d ∈ l₂, d < 10) →
    l₁.map (fun d => Char.ofNat (48 + d)) = l₂.map (fun d => Char.ofNat (48 + d)) → l₁ = l₂ := by
  intro l₁
  induction l₁ with
  | nil =>
    intro l₂ _ _ h
    cases l₂ with
    | nil => rfl
    | cons b bs => simp at h
  | cons a as ih =>
    intro l₂ h1 h2 h
    cases l₂ with
    | nil => simp at h
    | cons b bs =>
      simp only [List.map_cons, List.cons.injEq] at h
      have ha : a = b := digitCharInj a (h1 a (List.mem_cons_self a as)) b
        (h2 b (List.mem_cons_self b bs)) h.1
      have hs : as = bs := ih bs (fun d hd => h1 d (List.mem_cons_of_mem a hd))
        (fun d hd => h2 d (List.mem_cons_of_mem b hd)) h.2
      rw [ha, hs]

theorem natStr_data (x : ℕ) (hx : x ≠ 0) :
    (natStr x).data = ((digs x).map (fun d => Char.ofNat (48 + d))).reverse := by
  rw [natStr, if_neg hx]

theorem natStr_inj : Function.Injective natStr := by
  have main : ∀ x y : ℕ, x ≠ 0 → y ≠ 0 → natStr x = natStr y → x = y := by
    intro x y hx hy hxy
    have hdata := congrArg String.data hxy
    rw [natStr_data x hx, natStr_data y hy] at hdata
    have hrev := List.reverse_injective hdata
    have hd := mapDigitsInj (digs x) (digs y) (fun d hd => digsF_lt_ten _ _ _ hd)
      (fun d hd => digsF_lt_ten _ _ _ hd) hrev
    have h2 := congrArg unDigs hd
    rwa [digs_round, digs_round] at h2
  have zero : ∀ y : ℕ, y ≠ 0 → natStr 0 ≠ natStr y := by
    intro y hy hEq
    have h1 := congrArg String.data hEq
    rw [natStr_data y hy] at h1
    have h2 : (digs y).map (fun d => Char.ofNat (48 + d)) = ['0'] := by
      have h3 := congrArg List.reverse h1
      simpa using h3.symm
    have h3 : digs y = [0] := by
      apply mapDigitsInj (digs y) [0] (fun d hd => digsF_lt_ten _ _ _ hd) (by norm_num)
      rw [h2]
      decide
    have h4 := congrArg unDigs h3
    rw [digs_round] at h4
    simp [unDigs] at h4
    exact hy h4
  intro a b h
  by_cases ha : a = 0 <;> by_cases hb : b = 0
  · rw [ha, hb]
  · exact absurd (ha ▸ h) (zero b hb)
  · exact absurd (hb ▸ h).symm (zero a ha)
  · exact main a b ha hb h

theorem autoId_inj : Function.Injective autoId := by
  intro a b h
  apply natStr_inj
  apply String.ext
  have hdata := congrArg String.data h
  rw [autoId, autoId, String.data_append, String.data_append] at hdata
  exact List.append_cancel_left hdata

/-! ### The fresh-id search terminates on a free token -/

theorem freshFuel_ge : ∀ f ex c, c ≤ freshFuel f ex c := by
  intro f
  induction f with
  | zero => intro ex c; exact le_rfl
  | succ f ih =>
    intro ex c
    rw [freshFuel]
    split
    · exact le_trans (Nat.le_succ c) (ih ex (c + 1))
    · exact le_rfl

theorem freshFuel_spec : ∀ f ex c, (∃ k, k < f ∧ autoId (c + k) ∉ ex) →
    autoId (freshFuel f ex c) ∉ ex := by
  intro f
  induction f with
  | zero =>
    intro ex c h
    obtain ⟨k, hk, _⟩ := h
    exact absurd hk (Nat.not_lt_zero k)
  | succ f ih =>
    intro ex c h
    obtain ⟨k, hk, hfree⟩ := h
    rw [freshFuel]
    by_cases hc : autoId c ∈ ex
    · rw [if_pos hc]
      apply ih
      have hk0 : k ≠ 0 := by
        rintro rfl
        exact hfree hc
      refine ⟨k - 1, by omega, ?_⟩
      have : c + 1 + (k - 1) = c + k := by omega
      rwa [this]
    · rw [if_neg hc]
      exact hc

theorem fresh_exists (ex : List String) (c : ℕ) :
    ∃ k, k < ex.length + 1 ∧ autoId (c + k) ∉ ex := by
  by_contra h
  push_neg at h
  have hmap : ∀ k ∈ Finset.range (ex.length + 1), autoId (c + k) ∈ ex.toFinset := by
    intro k hk
    rw [List.mem_toFinset]
    exact h k (Finset.mem_range.mp hk)
  have hinj : ∀ i ∈ Finset.range (ex.length + 1), ∀ j ∈ Finset.range (ex.length + 1),
      autoId (c + i) = autoId (c + j) → i = j := by
    intro i _ j _ hij
    have := autoId_inj hij
    omega
  have hcard := Finset.card_le_card_of_injOn (fun k => autoId (c + k)) hmap hinj
  rw [Finset.card_range] at hcard
  have hle := List.toFinset_card_le ex
  omega

/-- The token actually assigned on line 53 is never an already-present id. -/
theorem freshNat_not_mem (ex : List String) (c : ℕ) : autoId (freshNat ex c) ∉ ex :=
  freshFuel_spec _ ex c (fresh_exists ex c)

theorem freshNat_ge (ex : List String) (c : ℕ) : c ≤ freshNat ex c :=
  freshFuel_ge _ ex c

/-! ### Structure of one row's issue and fix lists -/

theorem mem_ite_singleton {c : Prop} [Decidable c] {s x : String}
    (h : s ∈ (if c then [x] else ([] : List String))) : s = x ∧ c := by
  by_cases hc : c
  · rw [if_pos hc] at h
    exact ⟨by simpa using h, hc⟩
  · rw [if_neg hc] at h
    simp at h

theorem ite_singleton_eq_nil {c : Prop} [Decidable c] {x : String} :
    ((if c then [x] else ([] : List String)) = []) ↔ ¬ c := by
  split
  · simp only [List.cons_ne_nil, false_iff]
    simpa
  · simpa

/-- Every issue text a row can receive is one of the ten literals of the
source. -/
theorem specRow_iss_cases (th : Option ℚ) (idN : String) (mm : Option ℚ) (r : Row) :
    ∀ s ∈ (specRow th idN mm r).2.1,
      s = "Missing customer_id" ∨ s = "Missing name" ∨ s = "Missing surname" ∨
      s = "Missing gender" ∨ s = "Missing region" ∨ s = "Missing job_classification" ∨
      s = "Missing age" ∨ s = "Missing or negative balance" ∨ s = "Bad date format" ∨
      s = "Outlier in balance" := by
  intro s hs
  simp only [specRow, List.mem_append] at hs
  rcases hs with (((((((((h | h) | h) | h) | h) | h) | h) | h) | h) | h) <;>
    · have hx := (mem_ite_singleton h).1
      subst hx
      tauto

/-- The outlier note appears in a row's issue list exactly when line 102
fires for it. -/
theorem specRow_outlier_iff (th : Option ℚ) (idN : String) (mm : Option ℚ) (r : Row) :
    ("Outlier in balance" ∈ (specRow th idN mm r).2.1) ↔ outlierB th r.balance = true := by
  constructor
  · intro hs
    simp only [specRow, List.mem_append] at hs
    rcases hs with (((((((((h | h) | h) | h) | h) | h) | h) | h) | h) | h)
    · exact absurd (mem_ite_singleton h).1 (by decide)
    · exact absurd (mem_ite_singleton h).1 (by decide)
    · exact absurd (mem_ite_singleton h).1 (by decide)
    · exact absurd (mem_ite_singleton h).1 (by decide)
    · exact absurd (mem_ite_singleton h).1 (by decide)
    · exact absurd (mem_ite_singleton h).1 (by decide)
    · exact absurd (mem_ite_singleton h).1 (by decide)
    · exact absurd (mem_ite_singleton h).1 (by decide)
    · exact absurd (mem_ite_singleton h).1 (by decide)
    · exact (mem_ite_singleton h).2
  · intro ho
    simp [specRow, ho]

/-- Every triggered rule contributes one issue and one fix, except the
outlier flag which has no fix. -/
theorem specRow_lengths (th : Option ℚ) (idN : String) (mm : Option ℚ) (r : Row) :
    (specRow th idN mm r).2.1.length = (specRow th idN mm r).2.2.length +
      (if outlierB th r.balance = true then 1 else 0) := by
  simp only [specRow, List.length_append, apply_ite List.length, List.length_singleton,
    List.length_nil]

/-- A row with every check passing is returned unchanged, with at most the
outlier note. -/
theorem specRow_clean_eq (th : Option ℚ) (idN : String) (mm : Option ℚ) (r : Row)
    (h : CleanFields r) :
    specRow th idN mm r =
      (r, (if outlierB th r.balance = true then ["Outlier in balance"] else []), []) := by
  obtain ⟨h1, h2, h3, h4, h5, h6, h7, h8, h9⟩ := h
  simp [specRow, h1, h2, h3, h4, h5, h6, h7, h8, h9]

/-- A row's issue list is empty exactly when every check passes and it is
not an outlier. -/
theorem specRow_iss_nil_iff (th : Option ℚ) (idN : String) (mm : Option ℚ) (r : Row) :
    ((specRow th idN mm r).2.1 = []) ↔
      (CleanFields r ∧ outlierB th r.balance = false) := by
  simp only [specRow, List.append_eq_nil, ite_singleton_eq_nil, CleanFields,
    Bool.not_eq_true, Bool.not_eq_false]
  tauto

/-! ### Field projections of a repaired row -/

theorem specRow_cid (th : Option ℚ) (idN : String) (mm : Option ℚ) (r : Row) :
    (specRow th idN mm r).1.customer_id =
      if r.customer_id = Value.absent then Value.str idN else r.customer_id := rfl

theorem specRow_name (th : Option ℚ) (idN : String) (mm : Option ℚ) (r : Row) :
    (specRow th idN mm r).1.name =
      if r.name = Value.absent then Value.str "Unknown" else r.name := rfl

theorem specRow_surname (th : Option ℚ) (idN : String) (mm : Option ℚ) (r : Row) :
    (specRow th idN mm r).1.surname =
      if r.surname = Value.absent then Value.str "Unknown" else r.surname := rfl

theorem specRow_gender (th : Option ℚ) (idN : String) (mm : Option ℚ) (r : Row) :
    (specRow th idN mm r).1.gender =
      if r.gender = Value.absent then Value.str "Not Specified" else r.gender := rfl

theorem specRow_age (th : Option ℚ) (idN : String) (mm : Option ℚ) (r : Row) :
    (specRow th idN mm r).1.age =
      if r.age = Value.absent then
        (match mm with | some q => Value.num q | none => Value.absent)
      else r.age := rfl

theorem specRow_region (th : Option ℚ) (idN : String) (mm : Option ℚ) (r : Row) :
    (specRow th idN mm r).1.region =
      if r.region = Value.absent then Value.str "Unknown" else r.region := rfl

theorem specRow_job (th : Option ℚ) (idN : String) (mm : Option ℚ) (r : Row) :
    (specRow th idN mm r).1.job_classification =
      if r.job_classification = Value.absent then Value.str "Other"
      else r.job_classification := rfl

theorem specRow_date (th : Option ℚ) (idN : String) (mm : Option ℚ) (r : Row) :
    (specRow th idN mm r).1.date_joined =
      if dateOkV r.date_joined = false then Value.str "01.Jan.00"
      else r.date_joined := rfl

theorem specRow_balance (th : Option ℚ) (idN : String) (mm : Option ℚ) (r : Row) :
    (specRow th idN mm r).1.balance =
      if balBad r.balance = true then Value.num 0 else r.balance := rfl

theorem specRow_age_nostr {th : Option ℚ} {idN : String} {mm : Option ℚ} {r : Row}
    (h : r.age.isStr = false) : ((specRow th idN mm r).1.age).isStr = false := by
  rw [specRow_age]
  split
  · split <;> rfl
  · exact h

/-! ### Inversion principles for the row loop -/

theorem processRow_ok {th : Option ℚ} {col : List Value} {r : Row} {ex : List String}
    {ctr : ℕ} {t : Row × List String × List String} {ex1 : List String} {ctr1 : ℕ}
    (h : processRow th col r ex ctr = .ok (t, ex1, ctr1)) :
    ∃ mm, ageMeanStep col r = .ok mm ∧ r.balance.isStr = false ∧
      t = specRow th (autoId (freshNat ex ctr)) mm r ∧
      ex1 = (if r.customer_id = Value.absent then autoId (freshNat ex ctr) :: ex else ex) ∧
      ctr1 = (if r.customer_id = Value.absent then freshNat ex ctr + 1 else ctr) := by
  rw [processRow] at h
  cases hm : ageMeanStep col r with
  | error e =>
    rw [hm] at h
    simp at h
  | ok mm =>
    rw [hm] at h
    by_cases hb : r.balance.isStr = true
    · simp only [hb, if_true] at h
      simp at h
    · simp only [hb, if_false, Bool.false_eq_true] at h
      simp only [Except.ok.injEq, Prod.mk.injEq] at h
      exact ⟨mm, rfl, by simpa using hb, h.1.symm, h.2.1.symm, h.2.2.symm⟩

theorem runRows_cons_ok {th : Option ℚ} {prev : List Value} {r : Row} {rest : List Row}
    {ex : List String} {ctr : ℕ} {out : List (Row × List String × List String)}
    {exF : List String} {ctrF : ℕ}
    (h : runRows th prev (r :: rest) ex ctr = .ok (out, exF, ctrF)) :
    ∃ t ex1 ctr1 out',
      processRow th (prev ++ r.age :: rest.map (fun x => x.age)) r ex ctr = .ok (t, ex1, ctr1) ∧
      runRows th (prev ++ [t.1.age]) rest ex1 ctr1 = .ok (out', exF, ctrF) ∧
      out = t :: out' := by
  rw [runRows] at h
  cases hp : processRow th (prev ++ r.age :: rest.map (fun x => x.age)) r ex ctr with
  | error e =>
    rw [hp] at h
    simp at h
  | ok v =>
    obtain ⟨t, ex1, ctr1⟩ := v
    rw [hp] at h
    dsimp only at h
    cases hr : runRows th (prev ++ [t.1.age]) rest ex1 ctr1 with
    | error e =>
      rw [hr] at h
      simp at h
    | ok w =>
      obtain ⟨out', exF', ctrF'⟩ := w
      rw [hr] at h
      dsimp only at h
      simp only [Except.ok.injEq, Prod.mk.injEq] at h
      obtain ⟨h1, h2, h3⟩ := h
      refine ⟨t, ex1, ctr1, out', rfl, ?_, h1.symm⟩
      rw [h2, h3] at hr
      exact hr

theorem runRows_nil_ok {th : Option ℚ} {prev : List Value} {ex : List String} {ctr : ℕ}
    {out : List (Row × List String × List String)} {exF : List String} {ctrF : ℕ}
    (h : runRows th prev [] ex ctr = .ok (out, exF, ctrF)) :
    out = [] ∧ exF = ex ∧ ctrF = ctr := by
  rw [runRows] at h
  simp only [Except.ok.injEq, Prod.mk.injEq] at h
  exact ⟨h.1.symm, h.2.1.symm, h.2.2.symm⟩

/-- Pointwise shape of a successful run: every output row is `specRow` of
its input row, and no input balance is a string. -/
theorem runRows_pointwise {th : Option ℚ} :
    ∀ {todo : List Row} {prev : List Value} {ex : List String} {ctr : ℕ}
      {out : List (Row × List String × List String)} {exF : List String} {ctrF : ℕ},
    runRows th prev todo ex ctr = .ok (out, exF, ctrF) →
    List.Forall₂ (fun r t => (∃ idN mm, t = specRow th idN mm r) ∧ r.balance.isStr = false)
      todo out := by
  intro todo
  induction todo with
  | nil =>
    intro prev ex ctr out exF ctrF h
    rw [(runRows_nil_ok h).1]
    exact List.Forall₂.nil
  | cons r rest ih =>
    intro prev ex ctr out exF ctrF h
    obtain ⟨t, ex1, ctr1, out', hp, hr, rfl⟩ := runRows_cons_ok h
    obtain ⟨mm, _, hbal, ht, _, _⟩ := processRow_ok hp
    exact List.Forall₂.cons ⟨⟨_, mm, ht⟩, hbal⟩ (ih hr)

/-! ### The run succeeds exactly when no comparison or mean raises -/

theorem meanAges_no_str {l : List Value} (h : ∀ v ∈ l, v.isStr = false) :
    meanAges l = .ok (if numsOf l = [] then none
      else some (qDiv (qSum (numsOf l)) (qOfNat (numsOf l).length))) := by
  rw [meanAges, if_neg]
  · split <;> rfl
  · intro hc
    obtain ⟨v, hv, hs⟩ := List.any_eq_true.mp hc
    rw [h v hv] at hs
    exact Bool.false_ne_true hs

theorem runRows_total {th : Option ℚ} :
    ∀ {todo : List Row} {prev : List Value} {ex : List String} {ctr : ℕ},
    (∀ r ∈ todo, r.balance.isStr = false) →
    ((∃ r ∈ todo, r.age = Value.absent) →
       (∀ v ∈ prev, v.isStr = false) ∧ (∀ r ∈ todo, r.age.isStr = false)) →
    ∃ out exF ctrF, runRows th prev todo ex ctr = .ok (out, exF, ctrF) := by
  intro todo
  induction todo with
  | nil =>
    intro prev ex ctr _ _
    exact ⟨[], ex, ctr, rfl⟩
  | cons r rest ih =>
    intro prev ex ctr hbal hages
    have hmean : ∃ mm, ageMeanStep (prev ++ r.age :: rest.map (fun x => x.age)) r = .ok mm := by
      by_cases ha : r.age = Value.absent
      · have hcond := hages ⟨r, List.mem_cons_self r rest, ha⟩
        have hnostr : ∀ v ∈ prev ++ r.age :: rest.map (fun x => x.age), v.isStr = false := by
          intro v hv
          rcases List.mem_append.mp hv with hv | hv
          · exact hcond.1 v hv
          · rcases List.mem_cons.mp hv with rfl | hv
            · rw [ha]; rfl
            · obtain ⟨r', hr', rfl⟩ := List.mem_map.mp hv
              exact hcond.2 r' (List.mem_cons_of_mem r hr')
        rw [ageMeanStep, if_pos ha, meanAges_no_str hnostr]
        exact ⟨_, rfl⟩
      · rw [ageMeanStep, if_neg ha]
        exact ⟨none, rfl⟩
    obtain ⟨mm, hmm⟩ := hmean
    have hb : r.balance.isStr = false := hbal r (List.mem_cons_self r rest)
    have hballs : ∀ r' ∈ rest, r'.balance.isStr = false :=
      fun r' hr' => hbal r' (List.mem_cons_of_mem r hr')
    have hagests : (∃ r' ∈ rest, r'.age = Value.absent) →
        (∀ v ∈ prev ++ [(specRow th (autoId (freshNat ex ctr)) mm r).1.age], v.isStr = false) ∧
        (∀ r' ∈ rest, r'.age.isStr = false) := by
      intro hex
      obtain ⟨r', hr', ha'⟩ := hex
      have hcond := hages ⟨r', List.mem_cons_of_mem r hr', ha'⟩
      refine ⟨?_, fun r2 hr2 => hcond.2 r2 (List.mem_cons_of_mem r hr2)⟩
      intro v hv
      rcases List.mem_append.mp hv with hv | hv
      · exact hcond.1 v hv
      · have hveq := List.mem_singleton.mp hv
        subst hveq
        exact specRow_age_nostr (hcond.2 r (List.mem_cons_self r rest))
    obtain ⟨out, exF, ctrF, hout⟩ :=
      @ih (prev ++ [(specRow th (autoId (freshNat ex ctr)) mm r).1.age])
        (if r.customer_id = Value.absent then autoId (freshNat ex ctr) :: ex else ex)
        (if r.customer_id = Value.absent then freshNat ex ctr + 1 else ctr) hballs hagests
    refine ⟨specRow th (autoId (freshNat ex ctr)) mm r :: out, exF, ctrF, ?_⟩
    have hp : processRow th (prev ++ r.age :: rest.map (fun x => x.age)) r ex ctr =
        .ok (specRow th (autoId (freshNat ex ctr)) mm r,
          (if r.customer_id = Value.absent then autoId (freshNat ex ctr) :: ex else ex),
          (if r.customer_id = Value.absent then freshNat ex ctr + 1 else ctr)) := by
      rw [processRow, hmm]
      dsimp only
      rw [if_neg (by simp [hb])]
    rw [runRows, hp]
    dsimp only
    rw [hout]

theorem runRows_absent_strfree {th : Option ℚ} :
    ∀ {todo : List Row} {prev : List Value} {ex : List String} {ctr : ℕ}
      {out : List (Row × List String × List String)} {exF : List String} {ctrF : ℕ},
    runRows th prev todo ex ctr = .ok (out, exF, ctrF) →
    (∃ r ∈ todo, r.age = Value.absent) →
    (∀ v ∈ prev, v.isStr = false) ∧ (∀ r ∈ todo, r.age.isStr = false) := by
  intro todo
  induction todo with
  | nil =>
    intro prev ex ctr out exF ctrF _ hex
    obtain ⟨r, hr, _⟩ := hex
    simp at hr
  | cons r rest ih =>
    intro prev ex ctr out exF ctrF h hex
    obtain ⟨t, ex1, ctr1, out', hp, hr, rfl⟩ := runRows_cons_ok h
    obtain ⟨mm, hmm, hbal, ht, _, _⟩ := processRow_ok hp
    by_cases ha : r.age = Value.absent
    · rw [ageMeanStep, if_pos ha] at hmm
      have hnostr : ∀ v ∈ prev ++ r.age :: rest.map (fun x => x.age), v.isStr = false := by
        intro v hv
        by_contra hc
        have hany : (prev ++ r.age :: rest.map (fun x => x.age)).any
            (fun v => v.isStr) = true :=
          List.any_eq_true.mpr ⟨v, hv, by simpa using hc⟩
        rw [meanAges, if_pos hany] at hmm
        simp at hmm
      constructor
      · exact fun v hv => hnostr v (List.mem_append.mpr (Or.inl hv))
      · intro r' hr'
        rcases List.mem_cons.mp hr' with rfl | hr'
        · exact hnostr r'.age (List.mem_append.mpr (Or.inr (List.mem_cons_self _ _)))
        · exact hnostr r'.age (List.mem_append.mpr (Or.inr
            (List.mem_cons_of_mem _ (List.mem_map.mpr ⟨r', hr', rfl⟩))))
    · have hex' : ∃ r' ∈ rest, r'.age = Value.absent := by
        obtain ⟨r', hr', ha'⟩ := hex
        rcases List.mem_cons.mp hr' with rfl | hr'
        · exact absurd ha' ha
        · exact ⟨r', hr', ha'⟩
      obtain ⟨hprev', hrest⟩ := ih hr hex'
      have hage_r : r.age.isStr = false := by
        have hmem : t.1.age ∈ prev ++ [t.1.age] :=
          List.mem_append.mpr (Or.inr (List.mem_singleton.mpr rfl))
        have hh := hprev' _ hmem
        rw [ht, specRow_age, if_neg ha] at hh
        exact hh
      refine ⟨fun v hv => hprev' v (List.mem_append.mpr (Or.inl hv)), ?_⟩
      intro r' hr'
      rcases List.mem_cons.mp hr' with rfl | hr'
      · exact hage_r
      · exact hrest r' hr'

/-! ### Filling an absent age with the running mean preserves the mean -/

theorem ageOK_refl (M : ℚ) (l : List Value) : List.Forall₂ (AgeOK M) l l :=
  List.forall₂_same.mpr (fun _ _ => Or.inl rfl)

theorem forall2_mem_right {α β : Type _} {R : α → β → Prop} :
    ∀ {a : List α} {b : List β}, List.Forall₂ R a b → ∀ v ∈ b, ∃ u ∈ a, R u v := by
  intro a b h
  induction h with
  | nil => intro v hv; simp at hv
  | cons hab htl ih =>
    intro v hv
    rcases List.mem_cons.mp hv with rfl | hv
    · exact ⟨_, List.mem_cons_self _ _, hab⟩
    · obtain ⟨u, hu, hR⟩ := ih v hv
      exact ⟨u, List.mem_cons_of_mem _ hu, hR⟩

theorem ageOK_sums {M : ℚ} :
    ∀ {a b : List Value}, List.Forall₂ (AgeOK M) a b →
      ∃ t : ℕ, (numsOf b).sum = (numsOf a).sum + t * M ∧
        (numsOf b).length = (numsOf a).length + t := by
  intro a b h
  induction h with
  | nil => exact ⟨0, by simp, by simp⟩
  | @cons a0 b0 ta tb hab htl ih =>
    obtain ⟨t, hs, hl⟩ := ih
    rcases hab with rfl | ⟨ha, hb⟩
    · refine ⟨t, ?_, ?_⟩
      · simp only [numsOf, List.filterMap_cons] at *
        cases hv : numOf b0
        · simpa using hs
        · simp only [List.sum_cons, hs]
          ring
      · simp only [numsOf, List.filterMap_cons] at *
        cases hv : numOf b0
        · simpa using hl
        · simp only [List.length_cons, hl]
          omega
    · subst ha
      subst hb
      refine ⟨t + 1, ?_, ?_⟩
      · simp only [numsOf] at hs ⊢
        simp only [List.filterMap_cons, numOf, List.sum_cons]
        rw [hs]
        push_cast
        ring
      · simp only [numsOf] at hl ⊢
        simp only [List.filterMap_cons, numOf, List.length_cons]
        omega

/-- Replacing absent ages by the column's mean `M` leaves the column's mean
at `M`: the recomputation of line 85 always returns the original mean. -/
theorem meanAges_stable {M : ℚ} {a b : List Value}
    (hrel : List.Forall₂ (AgeOK M) a b)
    (hM : meanAges a = .ok (some M)) : meanAges b = .ok (some M) := by
  have hastra : ¬ a.any (fun v => v.isStr) = true := by
    intro hc
    rw [meanAges, if_pos hc] at hM
    simp at hM
  have hanostr : ∀ v ∈ a, v.isStr = false := by
    intro v hv
    by_contra hc
    exact hastra (List.any_eq_true.mpr ⟨v, hv, by simpa using hc⟩)
  have hne : numsOf a ≠ [] := by
    intro hnil
    rw [meanAges, if_neg hastra, if_pos hnil] at hM
    simp at hM
  have hval : qDiv (qSum (numsOf a)) (qOfNat (numsOf a).length) = M := by
    rw [meanAges, if_neg hastra, if_neg hne] at hM
    simpa using hM
  have hbstr : ∀ v ∈ b, v.isStr = false := by
    intro v hv
    obtain ⟨u, hu, hR⟩ := forall2_mem_right hrel v hv
    rcases hR with h | ⟨_, h⟩
    · rw [h]
      exact hanostr u hu
    · rw [h]
      rfl
  obtain ⟨t, hs, hl⟩ := ageOK_sums hrel
  have halen : (numsOf a).length ≠ 0 := by
    simpa [List.length_eq_zero] using hne
  have hbne : numsOf b ≠ [] := by
    intro hnil
    have h0 := congrArg List.length hnil
    rw [hl] at h0
    simp only [List.length_nil] at h0
    omega
  rw [meanAges_no_str hbstr, if_neg hbne]
  have hgoal : qDiv (qSum (numsOf b)) (qOfNat (numsOf b).length) = M := by
    rw [qDiv_eq, qSum_eq, qOfNat_eq, hs, hl]
    rw [qDiv_eq, qSum_eq, qOfNat_eq] at hval
    have hlenq : ((numsOf a).length : ℚ) ≠ 0 := by exact_mod_cast halen
    rw [div_eq_iff hlenq] at hval
    have hlen2 : (((numsOf a).length + t : ℕ) : ℚ) ≠ 0 := by
      have : (numsOf a).length + t ≠ 0 := by omega
      exact_mod_cast this
    rw [div_eq_iff hlen2, hval]
    push_cast
    ring
  rw [hgoal]

/-- Every absent age is filled with the mean `M` of the original age
column, and the fix text records that value to one decimal place. -/
theorem runRows_age_fill {th : Option ℚ} {M : ℚ} :
    ∀ {todo : List Row} {origPrev prev : List Value} {ex : List String} {ctr : ℕ}
      {out : List (Row × List String × List String)} {exF : List String} {ctrF : ℕ},
    runRows th prev todo ex ctr = .ok (out, exF, ctrF) →
    List.Forall₂ (AgeOK M) origPrev prev →
    meanAges (origPrev ++ todo.map (fun x => x.age)) = .ok (some M) →
    List.Forall₂ (fun r t => r.age = Value.absent →
      t.1.age = Value.num M ∧
        ("Filled age with average age " ++ fmt1 M) ∈ t.2.2) todo out := by
  intro todo
  induction todo with
  | nil =>
    intro origPrev prev ex ctr out exF ctrF h _ _
    rw [(runRows_nil_ok h).1]
    exact List.Forall₂.nil
  | cons r rest ih =>
    intro origPrev prev ex ctr out exF ctrF h hrel hM
    obtain ⟨t, ex1, ctr1, out', hp, hr, rfl⟩ := runRows_cons_ok h
    obtain ⟨mm, hmm, hbal, ht, _, _⟩ := processRow_ok hp
    have hMcol : meanAges (origPrev ++ r.age :: rest.map (fun x => x.age)) = .ok (some M) := by
      simpa using hM
    have hrelcol : List.Forall₂ (AgeOK M) (origPrev ++ r.age :: rest.map (fun x => x.age))
        (prev ++ r.age :: rest.map (fun x => x.age)) :=
      List.rel_append hrel (ageOK_refl M _)
    have hcur : meanAges (prev ++ r.age :: rest.map (fun x => x.age)) = .ok (some M) :=
      meanAges_stable hrelcol hMcol
    have hMtail : meanAges ((origPrev ++ [r.age]) ++ rest.map (fun x => x.age)) =
        .ok (some M) := by
      rw [List.append_assoc]
      simpa using hMcol
    by_cases ha : r.age = Value.absent
    · rw [ageMeanStep, if_pos ha, hcur] at hmm
      have hmmM : mm = some M := by
        simpa using hmm.symm
      subst hmmM
      have hage : t.1.age = Value.num M := by
        rw [ht, specRow_age, if_pos ha]
      have hrel' : List.Forall₂ (AgeOK M) (origPrev ++ [r.age]) (prev ++ [t.1.age]) :=
        List.rel_append hrel
          (List.Forall₂.cons (Or.inr ⟨ha, hage⟩) List.Forall₂.nil)
      refine List.Forall₂.cons (fun _ => ⟨hage, ?_⟩) (ih hr hrel' hMtail)
      rw [ht]
      simp [specRow, ha, fmtAvg]
    · have hage : t.1.age = r.age := by
        rw [ht, specRow_age, if_neg ha]
      have hrel' : List.Forall₂ (AgeOK M) (origPrev ++ [r.age]) (prev ++ [t.1.age]) :=
        List.rel_append hrel
          (List.Forall₂.cons (Or.inl hage) List.Forall₂.nil)
      exact List.Forall₂.cons (fun hc => absurd hc ha) (ih hr hrel' hMtail)

/-- When the whole age column has no numeric entry, an absent age is
"filled" with `NaN` and stays absent. -/
theorem runRows_age_nofill {th : Option ℚ} :
    ∀ {todo : List Row} {prev : List Value} {ex : List String} {ctr : ℕ}
      {out : List (Row × List String × List String)} {exF : List String} {ctrF : ℕ},
    runRows th prev todo ex ctr = .ok (out, exF, ctrF) →
    numsOf (prev ++ todo.map (fun x => x.age)) = [] →
    List.Forall₂ (fun r t =>
        t.1.age = (if r.age = Value.absent then Value.absent else r.age)) todo out := by
  intro todo
  induction todo with
  | nil =>
    intro prev ex ctr out exF ctrF h _
    rw [(runRows_nil_ok h).1]
    exact List.Forall₂.nil
  | cons r rest ih =>
    intro prev ex ctr out exF ctrF h hnil
    obtain ⟨t, ex1, ctr1, out', hp, hr, rfl⟩ := runRows_cons_ok h
    obtain ⟨mm, hmm, hbal, ht, _, _⟩ := processRow_ok hp
    simp only [List.map_cons] at hnil
    have hsplit : numsOf prev = [] ∧ numOf r.age = none ∧
        numsOf (rest.map (fun x => x.age)) = [] := by
      simp only [numsOf, List.filterMap_append, List.filterMap_cons,
        List.append_eq_nil] at hnil
      obtain ⟨h1, h2⟩ := hnil
      cases hv : numOf r.age
      · rw [hv] at h2
        exact ⟨h1, rfl, h2⟩
      · rw [hv] at h2
        simp at h2
    obtain ⟨hprev0, hr0, hrest0⟩ := hsplit
    have hageOut : t.1.age = (if r.age = Value.absent then Value.absent else r.age) := by
      by_cases ha : r.age = Value.absent
      · rw [ageMeanStep, if_pos ha] at hmm
        have hmm2 : mm = none := by
          have hcolnil : numsOf (prev ++ r.age :: rest.map (fun x => x.age)) = [] := by
            simp only [numsOf, List.filterMap_append, List.filterMap_cons, hr0]
            simp only [numsOf] at hprev0 hrest0
            rw [hprev0, hrest0]
            rfl
          cases hstr : (prev ++ r.age :: rest.map (fun x => x.age)).any (fun v => v.isStr)
          · rw [meanAges, if_neg (by simp [hstr]), if_pos hcolnil] at hmm
            simpa using hmm.symm
          · rw [meanAges, if_pos hstr] at hmm
            simp at hmm
        subst hmm2
        simp [ht, specRow_age, ha]
      · simp [ht, specRow_age, ha]
    refine List.Forall₂.cons hageOut (ih hr ?_)
    simp only [numsOf, List.filterMap_append, List.filterMap_cons]
    simp only [numsOf] at hprev0 hrest0
    rw [hprev0, hrest0]
    have : numOf t.1.age = none := by
      rw [hageOut]
      by_cases ha : r.age = Value.absent
      · rw [if_pos ha]
        rfl
      · rw [if_neg ha]
        exact hr0
    rw [this]
    rfl

/-! ### Shape of the generated customer ids -/

theorem mem_zip_of_get {α β : Type _} :
    ∀ {l₁ : List α} {l₂ : List β} {j : ℕ} {a : α} {b : β},
      l₁.get? j = some a → l₂.get? j = some b → (a, b) ∈ l₁.zip l₂ := by
  intro l₁
  induction l₁ with
  | nil => intro l₂ j a b h1 _; simp at h1
  | cons x xs ih =>
    intro l₂ j a b h1 h2
    cases l₂ with
    | nil => simp at h2
    | cons y ys =>
      cases j with
      | zero =>
        simp only [List.get?_cons_zero, Option.some.injEq] at h1 h2
        rw [List.zip_cons_cons, ← h1, ← h2]
        exact List.mem_cons_self _ _
      | succ n =>
        rw [List.zip_cons_cons]
        exact List.mem_cons_of_mem _ (ih (by simpa using h1) (by simpa using h2))

theorem pairwise_zip_get {α β : Type _} {R : α × β → α × β → Prop} :
    ∀ {l₁ : List α} {l₂ : List β}, List.Pairwise R (l₁.zip l₂) →
      ∀ {i j : ℕ} {a : α} {b : β} {a' : α} {b' : β}, i < j →
        l₁.get? i = some a → l₂.get? i = some b →
        l₁.get? j = some a' → l₂.get? j = some b' → R (a, b) (a', b') := by
  intro l₁
  induction l₁ with
  | nil => intro l₂ hp i j a b a' b' hij h1 _ _ _; simp at h1
  | cons x xs ih =>
    intro l₂ hp i j a b a' b' hij h1 h2 h3 h4
    cases l₂ with
    | nil => simp at h2
    | cons y ys =>
      rw [List.zip_cons_cons] at hp
      cases i with
      | zero =>
        simp only [List.get?_cons_zero, Option.some.injEq] at h1 h2
        obtain ⟨j', rfl⟩ : ∃ j', j = j' + 1 := ⟨j - 1, by omega⟩
        have hmem : (a', b') ∈ xs.zip ys :=
          mem_zip_of_get (by simpa using h3) (by simpa using h4)
        rw [← h1, ← h2]
        exact (List.pairwise_cons.mp hp).1 _ hmem
      | succ i' =>
        obtain ⟨j', rfl⟩ : ∃ j', j = j' + 1 := ⟨j - 1, by omega⟩
        refine ih (List.pairwise_cons.mp hp).2 ?_ (by simpa using h1)
          (by simpa using h2) (by simpa using h3) (by simpa using h4)
        omega

/-- Every id generated in a successful run has the form `AUTO-<n>` with
`n` at or above the incoming counter, is not in the incoming
`existing_ids`, and filled ids of distinct rows are pairwise distinct. -/
theorem runRows_ids {th : Option ℚ} :
    ∀ {todo : List Row} {prev : List Value} {ex : List String} {ctr : ℕ}
      {out : List (Row × List String × List String)} {exF : List String} {ctrF : ℕ},
    runRows th prev todo ex ctr = .ok (out, exF, ctrF) →
    List.Forall₂ (fun r t => r.customer_id = Value.absent →
      ∃ n, ctr ≤ n ∧ t.1.customer_id = Value.str (autoId n) ∧ autoId n ∉ ex) todo out
    ∧ List.Pairwise FilledNe (todo.zip out) := by
  intro todo
  induction todo with
  | nil =>
    intro prev ex ctr out exF ctrF h
    rw [(runRows_nil_ok h).1]
    exact ⟨List.Forall₂.nil, by simp⟩
  | cons r rest ih =>
    intro prev ex ctr out exF ctrF h
    obtain ⟨t, ex1, ctr1, out', hp, hr, rfl⟩ := runRows_cons_ok h
    obtain ⟨mm, hmm, hbal, ht, hex1, hctr1⟩ := processRow_ok hp
    obtain ⟨ihrel, ihpair⟩ := ih hr
    have hlen := List.Forall₂.length_eq ihrel
    by_cases hc : r.customer_id = Value.absent
    · rw [if_pos hc] at hex1 hctr1
      have hhead : t.1.customer_id = Value.str (autoId (freshNat ex ctr)) := by
        rw [ht, specRow_cid, if_pos hc]
      have hweak : List.Forall₂ (fun r' t' => r'.customer_id = Value.absent →
          ∃ n, ctr ≤ n ∧ t'.1.customer_id = Value.str (autoId n) ∧ autoId n ∉ ex)
          rest out' := by
        refine ihrel.imp ?_
        intro r' t' hrt hc'
        obtain ⟨n, hn1, hn2, hn3⟩ := hrt hc'
        refine ⟨n, ?_, hn2, ?_⟩
        · rw [hctr1] at hn1
          have := freshNat_ge ex ctr
          omega
        · rw [hex1] at hn3
          intro hmem
          exact hn3 (List.mem_cons_of_mem _ hmem)
      refine ⟨List.Forall₂.cons (fun _ => ⟨freshNat ex ctr, freshNat_ge ex ctr, hhead,
        freshNat_not_mem ex ctr⟩) hweak, ?_⟩
      rw [List.zip_cons_cons]
      refine List.pairwise_cons.mpr ⟨?_, ihpair⟩
      intro p hmem hc1 hc2
      have hprel : ∀ p' ∈ rest.zip out', p'.1.customer_id = Value.absent →
          ∃ n, ctr1 ≤ n ∧ p'.2.1.customer_id = Value.str (autoId n) ∧ autoId n ∉ ex1 := by
        intro p' hp'
        obtain ⟨x, y⟩ := p'
        exact (List.forall₂_iff_zip.mp ihrel).2 hp' 
      obtain ⟨n, hn1, hn2, hn3⟩ := hprel p hmem hc2
      rw [hhead, hn2]
      intro hEq
      have hEq2 : autoId (freshNat ex ctr) = autoId n := by
        simpa using hEq
      rw [← hEq2] at hn3
      rw [hex1] at hn3
      exact hn3 (List.mem_cons_self _ _)
    · rw [if_neg hc] at hex1 hctr1
      subst hex1
      subst hctr1
      refine ⟨List.Forall₂.cons (fun hcc => absurd hcc hc) ihrel, ?_⟩
      rw [List.zip_cons_cons]
      refine List.pairwise_cons.mpr ⟨?_, ihpair⟩
      intro p _ hc1 _
      exact absurd hc1 hc

/-! ### Why the `surname` bucket of the issue summary is dead -/

theorem hasSub_tail {p : List Char} {c : Char} {cs : List Char}
    (h : hasSub p cs = true) : hasSub p (c :: cs) = true := by
  rw [hasSub, h, Bool.or_true]

theorem hasPref_surname {l : List Char}
    (h : hasPref "surname".data l = true) : hasSub "name".data l = true := by
  rcases l with _ | ⟨a, _ | ⟨b, _ | ⟨c, rest⟩⟩⟩
  · simp [hasPref] at h
  · simp [hasPref] at h
  · simp [hasPref] at h
  · have h4 : hasPref "name".data rest = true := by
      simp only [show ("surname".data = ['s', 'u', 'r', 'n', 'a', 'm', 'e']) from rfl,
        hasPref, Bool.and_eq_true, decide_eq_true_eq] at h
      simp only [show ("name".data = ['n', 'a', 'm', 'e']) from rfl]
      rcases rest with _ | ⟨d, _ | ⟨e, _ | ⟨f, _ | ⟨g, tl⟩⟩⟩⟩ <;>
        simp_all [hasPref] <;> tauto
    apply hasSub_tail
    apply hasSub_tail
    apply hasSub_tail
    rcases rest with _ | ⟨d, tl⟩
    · simp [show ("name".data = ['n', 'a', 'm', 'e']) from rfl, hasPref] at h4
    · rw [hasSub, h4, Bool.true_or]

theorem hasSub_surname_name : ∀ l, hasSub "surname".data l = true →
    hasSub "name".data l = true := by
  intro l
  induction l with
  | nil => intro h; simp [hasSub] at h
  | cons c cs ih =>
    intro h
    rw [hasSub, Bool.or_eq_true] at h
    rcases h with h | h
    · exact hasPref_surname h
    · exact hasSub_tail (ih h)

/-! ### Index characterisation of the regex extraction -/

theorem upToSemi_none_iff {cs : List Char} :
    upToSemi cs = none ↔ ∀ k, cs.get? k ≠ some ';' := by
  induction cs with
  | nil => simp [upToSemi]
  | cons c cs ih =>
    by_cases hc : c = ';'
    · subst hc
      rw [upToSemi, if_pos rfl]
      constructor
      · intro h
        simp at h
      · intro h
        have h0 := h 0
        simp at h0
    · rw [upToSemi, if_neg hc, Option.map_eq_none', ih]
      constructor
      · intro h k
        cases k with
        | zero => simp [hc]
        | succ n => simpa using h n
      · intro h k
        simpa using h (k + 1)

theorem upToSemi_eq_some {cs : List Char} {k : ℕ}
    (hk : cs.get? k = some ';') (hmin : ∀ k' < k, cs.get? k' ≠ some ';') :
    upToSemi cs = some (cs.take k) := by
  induction cs generalizing k with
  | nil => simp at hk
  | cons c cs ih =>
    cases k with
    | zero =>
      simp only [List.get?_cons_zero, Option.some.injEq] at hk
      rw [upToSemi, if_pos hk]
      simp
    | succ n =>
      have hc : c ≠ ';' := by
        have h0 := hmin 0 (Nat.succ_pos n)
        simpa using h0
      have hmin' : ∀ k' < n, cs.get? k' ≠ some ';' := by
        intro k' hk'
        have := hmin (k' + 1) (by omega)
        simpa using this
      rw [upToSemi, if_neg hc, ih (by simpa using hk) hmin']
      simp

theorem matchAt_cons {c : Char} {cs : List Char} {i j : ℕ} :
    MatchAt (c :: cs) (i + 1) (j + 1) ↔ MatchAt cs i j := by
  unfold MatchAt
  constructor <;> rintro ⟨h1, h2, h3⟩ <;>
    exact ⟨by simpa using h1, by omega, by simpa using h3⟩

theorem selMatch_eq_none {l : List Char} (h : ¬ ∃ j, MatchAt l 0 j) :
    selMatch l = none := by
  rw [selMatch]
  by_cases hs : selPref l = true
  · rw [if_pos hs]
    cases hd : l.drop 6 with
    | nil => rfl
    | cons x xs =>
      rw [Option.map_eq_none', upToSemi_none_iff]
      intro k hcon
      have hxs : xs = l.drop 7 := by
        have h7 : l.drop 7 = (l.drop 6).drop 1 := by
          rw [List.drop_drop]
        rw [h7, hd]
        rfl
      apply h
      refine ⟨7 + k, ⟨by simpa using hs, by omega, ?_⟩⟩
      rw [hxs, List.get?_drop] at hcon
      exact hcon
  · rw [if_neg hs]

theorem reSearch_eq_none {l : List Char} (h : ¬ ∃ i j, MatchAt l i j) :
    reSearch l = none := by
  induction l with
  | nil => rfl
  | cons c cs ih =>
    rw [reSearch, selMatch_eq_none (fun ⟨j, hm⟩ => h ⟨0, j, hm⟩)]
    apply ih
    rintro ⟨i, j, hm⟩
    exact h ⟨i + 1, j + 1, matchAt_cons.mpr hm⟩

theorem reSearch_first {l : List Char} :
    ∀ {i j : ℕ}, FirstMatch l i j → reSearch l = some ((l.drop i).take (j - i)) := by
  induction l with
  | nil =>
    rintro i j ⟨⟨_, _, hj⟩, _, _⟩
    simp at hj
  | cons c cs ih =>
    rintro i j ⟨⟨hsel, hij, hj⟩, hleft, hmin⟩
    have hjlen : j < (c :: cs).length := by
      by_contra hh
      rw [List.get?_eq_none.mpr (by omega)] at hj
      simp at hj
    cases i with
    | zero =>
      have hs : selPref (c :: cs) = true := by simpa using hsel
      cases hd : (c :: cs).drop 6 with
      | nil =>
        have hle : (c :: cs).length ≤ 6 := by
          have := List.drop_eq_nil_iff_le.mp hd
          simpa using this
        omega
      | cons x xs =>
        have hxs : xs = (c :: cs).drop 7 := by
          have h7 : (c :: cs).drop 7 = ((c :: cs).drop 6).drop 1 := by
            rw [List.drop_drop]
          rw [h7, hd]
          rfl
        have hsemi : xs.get? (j - 7) = some ';' := by
          rw [hxs, List.get?_drop, show 7 + (j - 7) = j by omega]
          exact hj
        have hminxs : ∀ k' < j - 7, xs.get? k' ≠ some ';' := by
          intro k' hk' hcon
          rw [hxs, List.get?_drop] at hcon
          exact hmin (7 + k') (by omega) ⟨hsel, by omega, hcon⟩
        have hsm : selMatch (c :: cs) = some ((c :: cs).take 6 ++ x :: xs.take (j - 7)) := by
          rw [selMatch, if_pos hs, hd]
          dsimp only
          rw [upToSemi_eq_some hsemi hminxs]
          rfl
        rw [reSearch, hsm]
        dsimp only
        rw [List.drop_zero, Nat.sub_zero]
        congr 1
        have hsplit : (c :: cs).take j = (c :: cs).take 6 ++ ((c :: cs).drop 6).take (j - 6) := by
          rw [← List.take_add, show 6 + (j - 6) = j by omega]
        rw [hsplit, hd, show j - 6 = (j - 7) + 1 by omega]
        simp
    | succ i' =>
      have hnone : selMatch (c :: cs) = none := by
        apply selMatch_eq_none
        rintro ⟨j', hm⟩
        exact hleft 0 (Nat.succ_pos i') ⟨j', hm⟩
      have hshift : FirstMatch cs i' (j - 1) := by
        refine ⟨matchAt_cons.mp (by rw [show j - 1 + 1 = j by omega]; exact ⟨hsel, hij, hj⟩), ?_, ?_⟩
        · intro i'' hi'' ⟨j'', hm⟩
          exact hleft (i'' + 1) (by omega) ⟨j'' + 1, matchAt_cons.mpr hm⟩
        · intro j'' hj'' hm
          exact hmin (j'' + 1) (by omega) (matchAt_cons.mpr hm)
      rw [reSearch, hnone]
      dsimp only
      rw [ih hshift, List.drop_succ_cons, show j - (i' + 1) = j - 1 - i' by omega]

theorem extractSql_firstMatch {s : String} {i j : ℕ} (h : FirstMatch s.data i j) :
    extractSql s = String.mk ((s.data.drop i).take (j + 1 - i)) := by
  rw [extractSql, reSearch_first h]
  dsimp only
  have hij : i + 7 ≤ j := h.1.2.1
  have hsemi : (s.data.drop i)[j - i]? = some ';' := by
    rw [List.getElem?_drop, show i + (j - i) = j by omega, ← List.get?_eq_getElem?]
    exact h.1.2.2
  rw [show j + 1 - i = (j - i) + 1 by omega, List.take_succ, hsemi]
  rfl

theorem extractSql_no_match {s : String} (h : ¬ ∃ i j, MatchAt s.data i j) :
    extractSql s = "" := by
  rw [extractSql, reSearch_eq_none h]

/-! ### Further helpers for the claim theorems -/

theorem forall2_and {α β : Type _} {R S : α → β → Prop} :
    ∀ {a : List α} {b : List β}, List.Forall₂ R a b → List.Forall₂ S a b →
      List.Forall₂ (fun x y => R x y ∧ S x y) a b := by
  intro a b h
  induction h with
  | nil => intro _; exact List.Forall₂.nil
  | cons hab htl ih =>
    intro hs
    cases hs with
    | cons hab2 htl2 => exact List.Forall₂.cons ⟨hab, hab2⟩ (ih htl2)

theorem hasPref_self_append : ∀ (p v : List Char), hasPref p (p ++ v) = true := by
  intro p
  induction p with
  | nil => intro v; rfl
  | cons a as ih => intro v; simpa [hasPref] using ih v

theorem hasSub_of_append : ∀ (u : List Char) {p v : List Char}, p ≠ [] →
    hasSub p (u ++ (p ++ v)) = true := by
  intro u
  induction u with
  | nil =>
    intro p v hp
    rw [List.nil_append]
    cases p with
    | nil => exact absurd rfl hp
    | cons a as =>
      rw [List.cons_append, hasSub, ← List.cons_append, hasPref_self_append, Bool.true_or]
  | cons c cs ih =>
    intro p v hp
    rw [List.cons_append]
    exact hasSub_tail (ih hp)

/-- A match of the `SELECT` pattern anywhere in `l` puts the literal keyword
into the uppercased text. -/
theorem select_sub_of_matchAt {l : List Char} {i j : ℕ} (h : MatchAt l i j) :
    hasSub "SELECT".data (l.map ucChar) = true := by
  obtain ⟨hsel, -, -⟩ := h
  have hkw : ((l.drop i).take 6).map ucChar = "SELECT".data := by
    simpa [selPref] using hsel
  have hdec : l.map ucChar =
      (l.take i).map ucChar ++ ("SELECT".data ++ ((l.drop i).drop 6).map ucChar) := by
    rw [← hkw, ← List.map_append, ← List.map_append, List.take_append_drop,
      List.take_append_drop]
  rw [hdec]
  exact hasSub_of_append _ (by decide)

/-! ### The claims -/

/-- C1: every row whose age is absent in the raw dataset is filled with the
mean `M` of the originally present ages (here: the hypothesis that the mean
of the raw age column is the number `M`), the fix text records `M` to one
decimal place, and every age-filled row of the run receives this same value
`M` — even though line 85 recomputes the mean inside the loop, filling with
the mean keeps the mean fixed. -/
theorem C1_age_fill {df : List Row} {M : ℚ}
    {out : List (Row × List String × List String)} {exF : List String} {ctrF : ℕ}
    (hM : meanAges (agesOf df) = .ok (some M))
    (h : validateRaw df = .ok (out, exF, ctrF)) :
    List.Forall₂ (fun r t => r.age = Value.absent →
      t.1.age = Value.num M ∧
        ("Filled age with average age " ++ fmt1 M) ∈ t.2.2) df out := by
  rw [validateRaw] at h
  refine runRows_age_fill h List.Forall₂.nil ?_
  simpa [agesOf] using hM

/-- C1 witness: on `Cdf1` (present age 30, then an absent age) the absent
age is filled with 30 and the fix text shows 30.0. -/
theorem C1_age_fill_witness :
    List.Forall₂ (fun r t => r.age = Value.absent →
      t.1.age = Value.num 30 ∧
        ("Filled age with average age " ++ fmt1 30) ∈ t.2.2) Cdf1 C1out :=
  C1_age_fill (by decide : meanAges (agesOf Cdf1) = Except.ok (some 30))
    (by decide : validateRaw Cdf1 = .ok (C1out, ["C1", "C2"], 100001))

/-- C2 counterexample: on a row with every cell absent the Validator
returns a row whose age and date_joined are still absent — the `NaN` age
mean is assigned back to the cell, and `pd.to_datetime` accepts an absent
date as `NaT`, so neither rule 7 nor rule 9 repairs the cell. -/
theorem C2_counterexample :
    (validate_data [C2row]).map (fun res => res.rows.map (fun vr => vr.row.age)) =
      .ok [Value.absent] ∧
    (validate_data [C2row]).map (fun res => res.rows.map (fun vr => vr.row.date_joined)) =
      .ok [Value.absent] := by decide

/-- C2 (amended): after a successful validation every output row is
non-absent in customer_id, name, surname, gender, region,
job_classification and balance; an output age can only be absent when the
input age was absent and the age column had a numeric mean to offer — when
the raw age column has a numeric mean no output age is absent, and when it
has no numeric entry at all every absent age stays absent; an output date
can only be absent when the input date was absent. -/
theorem C2_amended {df : List Row} {out : List (Row × List String × List String)}
    {exF : List String} {ctrF : ℕ}
    (h : validateRaw df = .ok (out, exF, ctrF)) :
    (∀ t ∈ out,
      t.1.customer_id ≠ Value.absent ∧ t.1.name ≠ Value.absent ∧
      t.1.surname ≠ Value.absent ∧ t.1.gender ≠ Value.absent ∧
      t.1.region ≠ Value.absent ∧ t.1.job_classification ≠ Value.absent ∧
      t.1.balance ≠ Value.absent) ∧
    (∀ M, meanAges (agesOf df) = .ok (some M) → ∀ t ∈ out, t.1.age ≠ Value.absent) ∧
    (numsOf (agesOf df) = [] →
      List.Forall₂ (fun r t =>
        t.1.age = if r.age = Value.absent then Value.absent else r.age) df out) ∧
    (∀ t ∈ out, t.1.date_joined = Value.absent → ∃ r ∈ df, r.date_joined = Value.absent) := by
  rw [validateRaw] at h
  have hpw := runRows_pointwise h
  refine ⟨?_, ?_, ?_, ?_⟩
  · intro t ht
    obtain ⟨r, hr, ⟨idN, mm, rfl⟩, hbal⟩ := forall2_mem_right hpw t ht
    refine ⟨?_, ?_, ?_, ?_, ?_, ?_, ?_⟩
    · by_cases hc : r.customer_id = Value.absent
      · rw [specRow_cid, if_pos hc]; simp
      · rw [specRow_cid, if_neg hc]; exact hc
    · by_cases hc : r.name = Value.absent
      · rw [specRow_name, if_pos hc]; simp
      · rw [specRow_name, if_neg hc]; exact hc
    · by_cases hc : r.surname = Value.absent
      · rw [specRow_surname, if_pos hc]; simp
      · rw [specRow_surname, if_neg hc]; exact hc
    · by_cases hc : r.gender = Value.absent
      · rw [specRow_gender, if_pos hc]; simp
      · rw [specRow_gender, if_neg hc]; exact hc
    · by_cases hc : r.region = Value.absent
      · rw [specRow_region, if_pos hc]; simp
      · rw [specRow_region, if_neg hc]; exact hc
    · by_cases hc : r.job_classification = Value.absent
      · rw [specRow_job, if_pos hc]; simp
      · rw [specRow_job, if_neg hc]; exact hc
    · by_cases hb : balBad r.balance = true
      · rw [specRow_balance, if_pos hb]; simp
      · rw [specRow_balance, if_neg hb]
        intro hc
        rw [hc] at hb
        exact hb rfl
  · intro M hM t ht
    have hfill := runRows_age_fill h List.Forall₂.nil
      (by simpa [agesOf] using hM)
    obtain ⟨r, hr, hrest⟩ := forall2_mem_right (forall2_and hpw hfill) t ht
    obtain ⟨⟨⟨idN, mm, rfl⟩, -⟩, hfl⟩ := hrest
    by_cases ha : r.age = Value.absent
    · rw [(hfl ha).1]; simp
    · rw [specRow_age, if_neg ha]; exact ha
  · intro hnil
    refine runRows_age_nofill h ?_
    simpa [agesOf] using hnil
  · intro t ht hd
    obtain ⟨r, hr, ⟨idN, mm, rfl⟩, -⟩ := forall2_mem_right hpw t ht
    rw [specRow_date] at hd
    split at hd
    · exact absurd hd (by simp)
    · exact ⟨r, hr, hd⟩

/-- C2 witness: the amended guarantees evaluated on the all-absent row. -/
theorem C2_amended_witness :
    (∀ t ∈ C2out,
      t.1.customer_id ≠ Value.absent ∧ t.1.name ≠ Value.absent ∧
      t.1.surname ≠ Value.absent ∧ t.1.gender ≠ Value.absent ∧
      t.1.region ≠ Value.absent ∧ t.1.job_classification ≠ Value.absent ∧
      t.1.balance ≠ Value.absent) ∧
    (∀ M, meanAges (agesOf [C2row]) = .ok (some M) → ∀ t ∈ C2out, t.1.age ≠ Value.absent) ∧
    (numsOf (agesOf [C2row]) = [] →
      List.Forall₂ (fun r t =>
        t.1.age = if r.age = Value.absent then Value.absent else r.age) [C2row] C2out) ∧
    (∀ t ∈ C2out, t.1.date_joined = Value.absent → ∃ r ∈ [C2row], r.date_joined = Value.absent) :=
  C2_amended (by decide : validateRaw [C2row] = .ok (C2out, ["AUTO-100001"], 100002))

/-- C3 counterexample: a single row whose balance holds the string "abc"
makes the Validator raise — the comparison of line 90 is a `TypeError`
between `str` and `int`, so the stage does fail. -/
theorem C3_counterexample : validate_data [C3row] = .error () := by decide

/-- C3 (amended): the Validator succeeds with status OK whenever no balance
cell holds a string and, if some age is absent (so the mean of line 85 is
taken), no age cell holds a string; outside these typing conditions the
stage can raise, as the counterexample shows. -/
theorem C3_amended {df : List Row}
    (hbal : ∀ r ∈ df, r.balance.isStr = false)
    (hage : (∃ r ∈ df, r.age = Value.absent) → ∀ r ∈ df, r.age.isStr = false) :
    ∃ res, validate_data df = .ok res ∧ res.status = "OK" := by
  obtain ⟨out, exF, ctrF, h⟩ :=
    @runRows_total (balanceThresh df) df [] (initIds df) 100001 hbal
      (fun hex => ⟨by simp, hage hex⟩)
  refine ⟨{ rows := out.map (fun t =>
      { row := t.1, validation_issues := joinSemi t.2.1,
        fix_suggestions := joinSemi t.2.2 }), status := "OK" }, ?_, rfl⟩
  rw [validate_data, validateRaw, h]

/-- C3 witness: the amended success condition evaluated on a valid row. -/
theorem C3_amended_witness :
    ∃ res, validate_data [okRow] = .ok res ∧ res.status = "OK" :=
  C3_amended (by decide) (by decide)

/-- C4 counterexample: with raw balances -99 and 1 the 99th-percentile
threshold computes to exactly 0; the balance 1 exceeds it, yet the second
row gets no outlier note, because a zero threshold is falsy in Python and
line 102 skips the whole check. -/
theorem C4_counterexample :
    balanceThresh C4df = some 0 ∧ qLt 0 1 = true ∧
    (validate_data C4df).map (fun res => res.rows.map (fun vr => vr.validation_issues)) =
      .ok ["Missing or negative balance", ""] := by decide

/-- C4 (amended): when the balance column is numeric with threshold `t`, a
row receives the note "Outlier in balance" exactly when `t` is nonzero and
the row's original balance is a number strictly above `t` (a zero threshold
is falsy and disables the check); and each row's issue list exceeds its fix
list by exactly the outlier note, which has no fix. -/
theorem C4_amended {df : List Row} {t : ℚ}
    {out : List (Row × List String × List String)} {exF : List String} {ctrF : ℕ}
    (h : validateRaw df = .ok (out, exF, ctrF))
    (ht : balanceThresh df = some t) :
    List.Forall₂ (fun r u =>
      (("Outlier in balance" ∈ u.2.1) ↔
        (t ≠ 0 ∧ ∃ q, r.balance = Value.num q ∧ t < q)) ∧
      u.2.1.length = u.2.2.length +
        (if "Outlier in balance" ∈ u.2.1 then 1 else 0)) df out := by
  rw [validateRaw, ht] at h
  refine (runRows_pointwise h).imp ?_
  rintro r u ⟨⟨idN, mm, rfl⟩, -⟩
  constructor
  · rw [specRow_outlier_iff]
    constructor
    · intro ho
      simp only [outlierB] at ho
      by_cases h0 : t.num = 0
      · rw [if_pos h0] at ho
        simp at ho
      · rw [if_neg h0] at ho
        refine ⟨fun hz => h0 ((qNum_zero_iff t).mpr hz), ?_⟩
        cases hb : r.balance with
        | absent => rw [hb] at ho; simp at ho
        | str s => rw [hb] at ho; simp at ho
        | num q => rw [hb] at ho; exact ⟨q, rfl, (qLt_iff t q).mp ho⟩
    · rintro ⟨h0, q, hb, hlt⟩
      simp only [outlierB]
      rw [if_neg (fun hn => h0 ((qNum_zero_iff t).mp hn)), hb]
      exact (qLt_iff t q).mpr hlt
  · rw [specRow_lengths]
    congr 1
    by_cases ho : outlierB (some t) r.balance = true
    · rw [if_pos ho, if_pos ((specRow_outlier_iff (some t) idN mm r).mpr ho)]
    · rw [if_neg ho, if_neg (fun hm => ho ((specRow_outlier_iff (some t) idN mm r).mp hm))]

/-- C4 witness: on balances [10,10,10,10,1000] the threshold is 960.4 and
exactly the 1000-balance row carries the fixless outlier note. -/
theorem C4_amended_witness :
    List.Forall₂ (fun r u =>
      (("Outlier in balance" ∈ u.2.1) ↔
        (mkRat 4802 5 ≠ 0 ∧ ∃ q, r.balance = Value.num q ∧ mkRat 4802 5 < q)) ∧
      u.2.1.length = u.2.2.length +
        (if "Outlier in balance" ∈ u.2.1 then 1 else 0)) C4Wdf C4Wout :=
  C4_amended (by decide : validateRaw C4Wdf = .ok (C4Wout, ["C1", "C2", "C3", "C4", "C5"], 100001))
    (by decide : balanceThresh C4Wdf = some (mkRat 4802 5))

/-- C5: in a successful run every id the Validator synthesizes for an
absent customer_id has the form `AUTO-<n>` with `100001 ≤ n`, never equals
a pre-existing id of the dataset, and the filled ids of two distinct rows
never coincide. -/
theorem C5_auto_ids {df : List Row}
    {out : List (Row × List String × List String)} {exF : List String} {ctrF : ℕ}
    (h : validateRaw df = .ok (out, exF, ctrF)) :
    List.Forall₂ (fun r t => r.customer_id = Value.absent →
      ∃ n, 100001 ≤ n ∧ t.1.customer_id = Value.str (autoId n) ∧ autoId n ∉ initIds df)
      df out
    ∧ List.Pairwise FilledNe (df.zip out) := by
  rw [validateRaw] at h
  exact runRows_ids h

/-- C5 witness: on `C5df` — whose first row already owns `AUTO-100001` —
the two filled ids are fresh and distinct. -/
theorem C5_auto_ids_witness :
    List.Forall₂ (fun r t => r.customer_id = Value.absent →
      ∃ n, 100001 ≤ n ∧ t.1.customer_id = Value.str (autoId n) ∧ autoId n ∉ initIds C5df)
      C5df C5out
    ∧ List.Pairwise FilledNe (C5df.zip C5out) :=
  C5_auto_ids (by decide :
    validateRaw C5df = .ok (C5out, ["AUTO-100003", "AUTO-100002", "AUTO-100001"], 100004))

/-- C6 counterexample: on the reply "x SELECT;1; y" the regex of line 146
yields "SELECT;1;" — `[\s\S]+?` demands at least one character between the
keyword and the semicolon — while the claim's reading ("through to the next
semicolon") yields "SELECT;". -/
theorem C6_counterexample :
    extractSql C6s = "SELECT;1;" ∧ specExtractSql C6s = "SELECT;" ∧
    extractSql C6s ≠ specExtractSql C6s := by decide

/-- C6 (amended): the extraction returns the text from the first
case-insensitive SELECT through the earliest semicolon that leaves at least
one character after the keyword (both described by `FirstMatch`), semicolon
included; it returns the empty string when no such match exists; and on the
spec's example reply it returns exactly the expected statement. -/
theorem C6_amended (s : String) :
    (∀ i j, FirstMatch s.data i j →
        extractSql s = String.mk ((s.data.drop i).take (j + 1 - i))) ∧
    ((¬ ∃ i j, MatchAt s.data i j) → extractSql s = "") ∧
    extractSql "Sure! SELECT * FROM customers WHERE age < 30; Let me know if that helps." =
      "SELECT * FROM customers WHERE age < 30;" :=
  ⟨fun _ _ hm => extractSql_firstMatch hm, extractSql_no_match, by decide⟩

/-- C7 counterexample: on a model reply with no SELECT keyword the SQL
Generator returns empty SQL but leaves the status unset — the success arm
of `run_llm_sql` never writes `status`, so a no-match reply does not give
the claimed FAILED status. -/
theorem C7_counterexample :
    (run_llm_sql C7st (.ok "no statement here")).sql = "" ∧
    (run_llm_sql C7st (.ok "no statement here")).status = none := by decide

/-- C7 (amended): when the external call raises, the stage locally converts
it into empty SQL plus FAILED status; when the call returns a reply, the
status is left exactly as it was (not set to OK) and the SQL is the regex
extraction from the stripped reply — in particular a reply without any
SELECT keyword yields empty SQL with the status untouched. -/
theorem C7_amended (st : QAState) :
    (run_llm_sql st (.error ())).sql = "" ∧
    (run_llm_sql st (.error ())).status = some "FAILED" ∧
    (∀ text, (run_llm_sql st (.ok text)).status = st.status ∧
      (run_llm_sql st (.ok text)).sql = extractSql (pyStrip text)) ∧
    (∀ text, hasSub "SELECT".data ((pyStrip text).data.map ucChar) = false →
      (run_llm_sql st (.ok text)).sql = "") := by
  refine ⟨rfl, rfl, fun text => ⟨rfl, rfl⟩, fun text hns => ?_⟩
  show extractSql (pyStrip text) = ""
  apply extractSql_no_match
  rintro ⟨i, j, hm⟩
  rw [select_sub_of_matchAt hm] at hns
  simp at hns

/-- C8: the SQL Executor is total over the modelled engine: an engine result
table is returned with OK status, and an engine exception (empty SQL, syntax
error, or runtime failure all raise in `pd.read_sql`) is caught and turned
into an empty table with FAILED status. -/
theorem C8_execute_sql (st : QAState) (engine : String → Except Unit (List (List String))) :
    (∀ tb, engine st.sql = .ok tb →
        execute_sql st engine = { st with result := tb, status := some "OK" }) ∧
    (engine st.sql = .error () →
        execute_sql st engine = { st with result := [], status := some "FAILED" }) := by
  constructor
  · intro tb he
    rw [execute_sql, he]
  · intro he
    rw [execute_sql, he]

/-- C8 witness: on the empty-SQL state with an engine that raises on empty
SQL, the Executor returns the empty table and FAILED without raising. -/
theorem C8_execute_sql_witness :
    execute_sql C8st C8engine = { C8st with result := [], status := some "FAILED" } :=
  (C8_execute_sql C8st C8engine).2 (by decide)

/-- C9 counterexample: validating `C9df` (balances 100 and absent) leaves
the first row with no issues, but re-validating the output — balances now
[100, 0] — computes a lower threshold (99) and flags the previously clean
first row as an outlier, so a clean row does not keep empty
validation_issues under re-validation. -/
theorem C9_counterexample :
    validate_data C9df = .ok C9res1 ∧
    validate_data (C9res1.rows.map (fun vr => vr.row)) = .ok C9res2 ∧
    C9res1.rows.map (fun vr => vr.validation_issues) =
      ["", "Missing or negative balance"] ∧
    C9res2.rows.map (fun vr => vr.validation_issues) =
      ["Outlier in balance", ""] := by decide

/-- C9 (amended): re-validating the Validator's own output always succeeds,
and every output row whose fields all pass the repair checks is returned
unchanged with no fixes and with issues either empty or exactly the
non-repairing outlier note — the outlier note can reappear because the
threshold is recomputed from the repaired balances. -/
theorem C9_amended {df : List Row} {out : List (Row × List String × List String)}
    {exF : List String} {ctrF : ℕ}
    (h : validateRaw df = .ok (out, exF, ctrF)) :
    ∃ res, validate_data (out.map (fun t => t.1)) = .ok res ∧
      List.Forall₂ (fun t vr =>
        CleanFields t.1 →
          vr.row = t.1 ∧ vr.fix_suggestions = "" ∧
          (vr.validation_issues = "" ∨ vr.validation_issues = "Outlier in balance"))
        out res.rows := by
  rw [validateRaw] at h
  have hpw := runRows_pointwise h
  have hbal1 : ∀ r ∈ out.map (fun t => t.1), r.balance.isStr = false := by
    intro r hr
    obtain ⟨t, ht, rfl⟩ := List.mem_map.mp hr
    obtain ⟨r0, hr0, ⟨idN, mm, rfl⟩, hb0⟩ := forall2_mem_right hpw t ht
    by_cases hb : balBad r0.balance = true
    · rw [specRow_balance, if_pos hb]; rfl
    · rw [specRow_balance, if_neg hb]; exact hb0
  have hage1 : (∃ r ∈ out.map (fun t => t.1), r.age = Value.absent) →
      ∀ r ∈ out.map (fun t => t.1), r.age.isStr = false := by
    intro hex r hr
    obtain ⟨ra, hra, haa⟩ := hex
    obtain ⟨ta, hta, rfl⟩ := List.mem_map.mp hra
    obtain ⟨ra0, hra0, ⟨idNa, mma, rfl⟩, -⟩ := forall2_mem_right hpw ta hta
    have habs0 : ra0.age = Value.absent := by
      by_contra hno
      rw [specRow_age, if_neg hno] at haa
      exact hno haa
    have hstr := (runRows_absent_strfree h ⟨ra0, hra0, habs0⟩).2
    obtain ⟨t, ht, rfl⟩ := List.mem_map.mp hr
    obtain ⟨r0, hr0, ⟨idN, mm, rfl⟩, -⟩ := forall2_mem_right hpw t ht
    exact specRow_age_nostr (hstr r0 hr0)
  obtain ⟨out2, ex2, ctr2, h2⟩ :=
    @runRows_total (balanceThresh (out.map (fun t => t.1))) (out.map (fun t => t.1)) []
      (initIds (out.map (fun t => t.1))) 100001 hbal1
      (fun hex => ⟨by simp, hage1 hex⟩)
  have hpw2 := runRows_pointwise h2
  refine ⟨{ rows := out2.map (fun u =>
      { row := u.1, validation_issues := joinSemi u.2.1,
        fix_suggestions := joinSemi u.2.2 }), status := "OK" }, ?_, ?_⟩
  · rw [validate_data, validateRaw, h2]
  · dsimp only
    rw [List.forall₂_map_right_iff]
    have hpw2b := List.forall₂_map_left_iff.mp hpw2
    refine hpw2b.imp ?_
    intro t u hrel hclean
    obtain ⟨⟨idN, mm, hu⟩, -⟩ := hrel
    rw [hu, specRow_clean_eq _ _ _ _ hclean]
    refine ⟨rfl, rfl, ?_⟩
    split
    · exact Or.inr rfl
    · exact Or.inl rfl

/-- C9 witness: the amended re-validation guarantee evaluated on the output
of validating `[okRow]`. -/
theorem C9_amended_witness :
    ∃ res, validate_data (C9Wout.map (fun t => t.1)) = .ok res ∧
      List.Forall₂ (fun t vr =>
        CleanFields t.1 →
          vr.row = t.1 ∧ vr.fix_suggestions = "" ∧
          (vr.validation_issues = "" ∨ vr.validation_issues = "Outlier in balance"))
        C9Wout res.rows :=
  C9_amended (by decide : validateRaw [okRow] = .ok (C9Wout, ["C1"], 100001))

/-- C10: in the issue summary of `app02.py` the bucket test for "name" runs
before the one for "surname", and "surname" contains "name" as a substring,
so the surname bucket is unreachable for every issue text; in particular
every text containing "surname" lands in the customer_id or name bucket,
and "Missing surname" is counted under "name". -/
theorem C10_surname_bucket_dead :
    (∀ s : String, classifyIssue s ≠ "surname") ∧
    (∀ s : String, hasSub "surname".data (lowerStr s) = true →
        classifyIssue s = "customer_id" ∨ classifyIssue s = "name") ∧
    classifyIssue "Missing surname" = "name" := by
  refine ⟨?_, ?_, by decide⟩
  · intro s
    simp only [classifyIssue]
    split_ifs with h1 h2 h3 h4 h5 h6 h7 h8 h9 <;>
      first
        | decide
        | exact absurd (hasSub_surname_name _ h3) h2
  · intro s hsurn
    simp only [classifyIssue]
    split_ifs with h1 h2 h3 h4 h5 h6 h7 h8 h9 <;>
      first
        | exact Or.inl rfl
        | exact Or.inr rfl
        | exact absurd (hasSub_surname_name _ hsurn) h2
